import Mathlib

/-!
# coredns-https: selection policies, load-balancing client and DoH transport

A shallow embedding of `policy.go`, `proxy.go`, `metrics.go` and the
configuration parser of `setup.go` of the `https` CoreDNS plugin, followed by
theorems about the embedded functions.

Conventions of the embedding:

* Go `int` values are Lean `Int`; the `uint32` round-robin cursor is a `Nat`
  reduced modulo `2 ^ 32` at every update, and the conversion `uint32(poolLen)`
  is reduction modulo `2 ^ 32`.
* A Go run-time panic (index out of range, integer division by zero, nil
  dereference) is the `Except.error` outcome of the embedded function; for the
  functions that record events it carries the events up to the panic.
* Calls of collaborators (transports, the HTTP client, `Close`, `cancel`) are
  recorded as events in the order they happen.
* Functions of other packages (`math/rand`, `context`, `net/http`, `io`, `dns`,
  `caddy`, `plugin`) are embedded after their documented behaviour or taken as
  parameters, as each definition says.
* Hidden state (the cursor, the random generator, the network reached by a
  transport) is passed explicitly.
* Allocation limits of `make` are outside the embedding.
-/

namespace https

deriving instance DecidableEq for Except

/-! ## policy.go -/

/-- Go `[]int`; the nil slice is the empty list. -/
abbrev IntSlice := List Int

/-- State of the generator behind `math/rand`: the stream of raw values it is
going to produce. Quantifying over `draws` quantifies over every outcome of the
random source. -/
structure randSource where
  draws : Nat → Nat

/-- `rand.Intn(n)` for `n > 0`: consumes one raw value and returns a number in
`[0, n)`. -/
def randSource.Intn (r : randSource) (n : Nat) : Nat × randSource :=
  (r.draws 0 % n, ⟨fun k => r.draws (k + 1)⟩)

/-- Loop of `rand.Perm` (Go standard library, `math/rand`):
`for i := 0; i < n; i++ { j := r.Intn(i + 1); m[i] = m[j]; m[j] = i }`.
The first argument counts the iterations that remain. -/
def rand.permLoop : Nat → Nat → IntSlice → randSource → IntSlice × randSource
  | 0, _, m, r => (m, r)
  | k + 1, i, m, r =>
    let j := (r.Intn (i + 1)).1
    let m1 := m.set i (m.getD j 0)
    let m2 := m1.set j (i : Int)
    rand.permLoop k (i + 1) m2 (r.Intn (i + 1)).2

/-- `rand.Perm(n)` of the Go standard library: `m := make([]int, n)` followed by
the loop above. -/
def rand.Perm (r : randSource) (n : Nat) : IntSlice × randSource :=
  rand.permLoop n 0 (List.replicate n 0) r

/-- `randomPolicy` is an empty struct; its `List` draws from the process-wide
generator, which is passed and returned here. -/
def randomPolicy.List (r : randSource) (poolLen : Int) : IntSlice × randSource :=
  if poolLen ≤ 0 then ([], r)
  else rand.Perm r poolLen.toNat

/-- `roundRobinPolicy{robin uint32}`. -/
structure roundRobinPolicy where
  robin : Nat
deriving DecidableEq, Repr

/-- `newRoundRobinPolicy`: the cursor starts at `math.MaxUint32`. -/
def newRoundRobinPolicy : roundRobinPolicy := ⟨2 ^ 32 - 1⟩

/-- The loop `for j := lo; j < hi; j++ { result = append(result, j) }`; the last
argument counts the iterations that remain (`hi - lo`). -/
def appendLoop (result : IntSlice) (j : Nat) : Nat → IntSlice
  | 0 => result
  | k + 1 => appendLoop (result ++ [(j : Int)]) (j + 1) k

/-- `roundRobinPolicy.List`. Returns the ordering (or the division panic raised
when `uint32(poolLen)` is zero) and the policy with its updated cursor. -/
def roundRobinPolicy.List (p : roundRobinPolicy) (poolLen : Int) :
    Except String IntSlice × roundRobinPolicy :=
  if poolLen ≤ 0 then (.ok [], p)
  else
    let robin := (p.robin + 1) % 2 ^ 32
    let m := poolLen.toNat % 2 ^ 32
    if m = 0 then (.error "integer divide by zero", ⟨robin⟩)
    else
      let i := robin % m
      let result := appendLoop [] i (poolLen.toNat - i)
      let result := appendLoop result 0 i
      (.ok result, ⟨robin⟩)

/-- `sequentialPolicy` is an empty struct. -/
structure sequentialPolicy where
deriving DecidableEq, Repr

/-- The loop `for i := 0; i < poolLen; i++ { result[i] = i }`; the first
argument counts the iterations that remain. -/
def fillLoop : Nat → Nat → IntSlice → IntSlice
  | 0, _, result => result
  | k + 1, i, result => fillLoop k (i + 1) (result.set i (i : Int))

/-- `sequentialPolicy.List`. -/
def sequentialPolicy.List (_p : sequentialPolicy) (poolLen : Int) : IntSlice :=
  if poolLen ≤ 0 then []
  else fillLoop poolLen.toNat 0 (List.replicate poolLen.toNat 0)

/-! ## proxy.go -/

/-- Go `[]byte`. -/
abbrev Bytes := List (Fin 256)

/-- `time.Duration` counts nanoseconds. -/
abbrev Duration := Int

/-- `time.Second`. -/
def time.Second : Duration := 1000000000

def dnsMessageMimeType : String := "application/dns-message"

def maxDNSMessageSize : Nat := 1472

def defaultRequestTimeout : Duration := 2 * time.Second

def dnsMessageMimeTypeHeader : List String := [dnsMessageMimeType]

/-- Go `error` values met by this package: its two sentinel values, and errors
created by other packages (`net/http`, `io`, `dns`, a wrapped client), which are
told apart by their text. A nil error is `none : Option error`. -/
inductive error where
  | errResponseTooLarge
  | errResponseStatus
  | foreign (text : String)
deriving DecidableEq, Repr

/-- `context.Context`: the background context, or a scope derived from a parent
by `context.WithTimeout`. -/
inductive Context where
  | Background
  | WithTimeout (parent : Context) (timeout : Duration)
deriving DecidableEq, Repr

/-- The `dnsClient` interface. A transport acts on a world `σ` (the network, its
own counters); `Msg` stands for `dns.Msg`. The result is the pair
`(result *dns.Msg, err error)` and the world after the call. -/
structure dnsClient (σ Msg : Type) where
  Query : Context → Bytes → σ → (Option Msg × Option error) × σ

/-- The `policy` interface: an object with hidden state and a `List` method.
`list` gives the returned ordering, or the panic raised instead, and the state
after the call. -/
structure policy where
  State : Type
  state : State
  list : State → Int → Except String IntSlice × State

/-- A call `p.List(poolLen)` through the interface. -/
def policy.List (p : policy) (poolLen : Int) : Except String IntSlice × policy :=
  ((p.list p.state poolLen).1, ⟨p.State, (p.list p.state poolLen).2, p.list⟩)

/-- `newRandomPolicy()` as a `policy`; `r` is the state of the process-wide
generator. -/
def newRandomPolicy (r : randSource) : policy :=
  ⟨randSource, r, fun s n => (.ok (randomPolicy.List s n).1, (randomPolicy.List s n).2)⟩

/-- A `*roundRobinPolicy` as a `policy`. -/
def roundRobinPolicy.toPolicy (p : roundRobinPolicy) : policy :=
  ⟨roundRobinPolicy, p, roundRobinPolicy.List⟩

/-- A `*sequentialPolicy` as a `policy`. -/
def sequentialPolicy.toPolicy (p : sequentialPolicy) : policy :=
  ⟨sequentialPolicy, p, fun s n => (.ok (s.List n), s)⟩

/-- `lbDNSClient`. -/
structure lbDNSClient (σ Msg : Type) where
  p : policy
  timeout : Duration
  maxFails : Int
  clients : List (dnsClient σ Msg)

/-- `lbDNSClientOption`: `func(c *lbDNSClient)`, here the updated client. -/
abbrev lbDNSClientOption (σ Msg : Type) := lbDNSClient σ Msg → lbDNSClient σ Msg

def withLbPolicy {σ Msg : Type} (p : policy) : lbDNSClientOption σ Msg :=
  fun c => ⟨p, c.timeout, c.maxFails, c.clients⟩

def withLbRequestTimeout {σ Msg : Type} (timeout : Duration) : lbDNSClientOption σ Msg :=
  fun c => ⟨c.p, timeout, c.maxFails, c.clients⟩

def withLbMaxFails {σ Msg : Type} (maxFails : Int) : lbDNSClientOption σ Msg :=
  fun c => ⟨c.p, c.timeout, maxFails, c.clients⟩

/-- `newLoadBalanceDNSClient`; `rng` is the generator behind the default random
policy. -/
def newLoadBalanceDNSClient {σ Msg : Type} (rng : randSource)
    (clients : List (dnsClient σ Msg)) (opts : List (lbDNSClientOption σ Msg)) :
    lbDNSClient σ Msg :=
  let c : lbDNSClient σ Msg := ⟨newRandomPolicy rng, defaultRequestTimeout, clients.length, clients⟩
  let c := opts.foldl (fun c o => o c) c
  if (clients.length : Int) < c.maxFails then ⟨c.p, c.timeout, clients.length, c.clients⟩
  else c

/-- What `lbDNSClient.Query` does that can be seen from outside: a call of the
transport `clients[client]`, or the call of a `cancel` function. -/
inductive lbEvent where
  | Query (client : Nat) (ctx : Context) (dnsreq : Bytes)
  | cancel (ctx : Context)
deriving DecidableEq, Repr

/-- Local state of a running `lbDNSClient.Query`: the named results `r`, `err`,
the world, the events so far, and the scopes whose `cancel` is deferred. -/
structure lbFrame (σ Msg : Type) where
  r : Option Msg
  err : Option error
  world : σ
  trace : List lbEvent
  deferred : List Context

/-- What `lbDNSClient.Query` returns, with the world and the events of the whole
call. -/
structure lbResult (σ Msg : Type) where
  r : Option Msg
  err : Option error
  world : σ
  trace : List lbEvent
deriving DecidableEq

/-- A panic of `lbDNSClient.Query`: its reason, and the world and the events at
that point (the deferred `cancel` calls, which run while the panic unwinds,
included). -/
structure lbPanic (σ : Type) where
  reason : String
  world : σ
  trace : List lbEvent
deriving DecidableEq

/-- The expression `c.clients[ids[i]]`: the index and the transport it selects,
or `none` when `i` or `ids[i]` is out of range (a run-time panic). -/
def lbDNSClient.lookup {σ Msg : Type} (c : lbDNSClient σ Msg) (ids : IntSlice) (i : Nat) :
    Option (Nat × dnsClient σ Msg) :=
  match ids[i]? with
  | none => none
  | some id =>
    if id < 0 then none
    else (c.clients[id.toNat]?).map (fun cl => (id.toNat, cl))

/-- The loop `for i := 0; i < c.maxFails; i++ { ... }` of `lbDNSClient.Query`.
The first numeric argument counts the iterations that remain
(`c.maxFails - i`), the second is `i`. Every iteration derives its scope from
the `ctx` parameter of `Query`, because the `ctx` declared in the loop body is
a new variable of that iteration. A panic carries the frame it interrupts. -/
def lbDNSClient.attempts {σ Msg : Type} (c : lbDNSClient σ Msg) (ids : IntSlice)
    (ctx : Context) (dnsreq : Bytes) :
    Nat → Nat → lbFrame σ Msg → Except (String × lbFrame σ Msg) (lbFrame σ Msg)
  | 0, _, fr => .ok fr
  | n + 1, i, fr =>
    let scope := Context.WithTimeout ctx c.timeout
    match c.lookup ids i with
    | none =>
      .error ("index out of range", ⟨fr.r, fr.err, fr.world, fr.trace, scope :: fr.deferred⟩)
    | some (id, cl) =>
      let out := cl.Query scope dnsreq fr.world
      let called := fr.trace ++ [lbEvent.Query id scope dnsreq]
      match out.1.2 with
      | none => .ok ⟨out.1.1, none, out.2, called, scope :: fr.deferred⟩
      | some e =>
        lbDNSClient.attempts c ids ctx dnsreq n (i + 1)
          ⟨out.1.1, some e, out.2, called ++ [lbEvent.cancel scope], scope :: fr.deferred⟩

/-- `lbDNSClient.Query`. Returns the result (or the panic) and the policy after
its `List` call. The deferred `cancel` calls run when the function returns. -/
def lbDNSClient.Query {σ Msg : Type} (c : lbDNSClient σ Msg) (ctx : Context)
    (dnsreq : Bytes) (w : σ) : Except (lbPanic σ) (lbResult σ Msg) × policy :=
  let listed := c.p.List c.clients.length
  match listed.1 with
  | .error e => (.error ⟨e, w, []⟩, listed.2)
  | .ok ids =>
    match c.attempts ids ctx dnsreq c.maxFails.toNat 0 ⟨none, none, w, [], []⟩ with
    | .error (e, fr) =>
      (.error ⟨e, fr.world, fr.trace ++ fr.deferred.map lbEvent.cancel⟩, listed.2)
    | .ok fr =>
      (.ok ⟨fr.r, fr.err, fr.world, fr.trace ++ fr.deferred.map lbEvent.cancel⟩, listed.2)

/-- `http.Header`, a map from keys to value lists, as an association list. -/
abbrev Header := List (String × List String)

/-- The map assignment `h[key] = value`. -/
def Header.set (h : Header) (key : String) (value : List String) : Header :=
  (key, value) :: h.filter (fun kv => kv.1 ≠ key)

/-- The map lookup `h[key]`. -/
def Header.get (h : Header) (key : String) : Option (List String) :=
  (h.find? (fun kv => kv.1 = key)).map (fun kv => kv.2)

/-- `http.Request`, the parts this package sets. -/
structure httpRequest where
  ctx : Context
  Method : String
  URL : String
  Header : Header
  Body : Bytes
deriving DecidableEq, Repr

/-- A byte stream such as a response body: the bytes it delivers and the error
it reports in place of `io.EOF` once they are read (`none` is a clean end). -/
structure Reader where
  data : Bytes
  err : Option error
deriving DecidableEq, Repr

/-- `http.Response`, the parts this package reads. `Body` is never nil. -/
structure httpResponse where
  StatusCode : Int
  Body : Reader
deriving DecidableEq, Repr

/-- The `httpRequestDoer` interface, acting on a world `σ`. -/
structure httpRequestDoer (σ : Type) where
  Do : httpRequest → σ → (Option httpResponse × Option error) × σ

/-- `dohDNSClient`. -/
structure dohDNSClient (σ : Type) where
  client : httpRequestDoer σ
  url : String

def newDoHDNSClient {σ : Type} (client : httpRequestDoer σ) (url : String) : dohDNSClient σ :=
  ⟨client, url⟩

/-- `http.NewRequestWithContext` (net/http) for a non-nil context and a valid
method. `urlErr` stands for `url.Parse`: the error it reports for a URL, if
any. A request that is built carries the method, the URL, the body and an empty
header. -/
def http.NewRequestWithContext (urlErr : String → Option error) (ctx : Context)
    (method url : String) (body : Bytes) : Except error httpRequest :=
  match urlErr url with
  | some e => .error e
  | none => .ok ⟨ctx, method, url, [], body⟩

/-- `io.LimitReader(r, n)`: the stream that ends after `n` bytes of `r`. -/
def io.LimitReader (r : Reader) (n : Nat) : Reader :=
  if n ≤ r.data.length then ⟨r.data.take n, none⟩ else r

/-- `io.ReadAll(r)`: the bytes read until the end of the stream, and the error
that ended it, if any. -/
def io.ReadAll (r : Reader) : Bytes × Option error :=
  (r.data, r.err)

/-- What `dohDNSClient.Query` does that can be seen from outside. -/
inductive dohEvent where
  | Do (req : httpRequest)
  | ReadAll (limit : Nat)
  | Unpack (body : Bytes)
  | Close
deriving DecidableEq, Repr

/-- What `dohDNSClient.Query` returns, with the world and the events of the
call. -/
structure dohResult (σ Msg : Type) where
  r : Option Msg
  err : Option error
  world : σ
  trace : List dohEvent
deriving DecidableEq

/-- A panic of `dohDNSClient.Query`: its reason, and the world and the events at
that point. -/
structure dohPanic (σ : Type) where
  reason : String
  world : σ
  trace : List dohEvent
deriving DecidableEq

/-- `dohDNSClient.Query`. `Unpack` stands for `(*dns.Msg).Unpack` applied to a
fresh message: the message it leaves and the text of the error it returns, an
error of package `dns`. The panic is the dereference of a nil response that
comes with a nil error. -/
def dohDNSClient.Query {σ Msg : Type} (urlErr : String → Option error)
    (Unpack : Bytes → Msg × Option String) (c : dohDNSClient σ) (ctx : Context)
    (dnsreq : Bytes) (w : σ) : Except (dohPanic σ) (dohResult σ Msg) :=
  match http.NewRequestWithContext urlErr ctx "POST" c.url dnsreq with
  | .error e => .ok ⟨none, some e, w, []⟩
  | .ok req0 =>
    let req : httpRequest := ⟨req0.ctx, req0.Method, req0.URL,
      (req0.Header.set "Accept" dnsMessageMimeTypeHeader).set "Content-Type"
        dnsMessageMimeTypeHeader, req0.Body⟩
    let done := c.client.Do req w
    match done.1.2 with
    | some e => .ok ⟨none, some e, done.2, [.Do req]⟩
    | none =>
      match done.1.1 with
      | none => .error ⟨"nil pointer dereference", done.2, [.Do req]⟩
      | some resp =>
        if resp.StatusCode < 200 ∨ resp.StatusCode ≥ 300 then
          .ok ⟨none, some .errResponseStatus, done.2, [.Do req, .Close]⟩
        else
          let read := io.ReadAll (io.LimitReader resp.Body (maxDNSMessageSize + 1))
          let events := [dohEvent.Do req, dohEvent.ReadAll (maxDNSMessageSize + 1)]
          match read.2 with
          | some e => .ok ⟨none, some e, done.2, events ++ [.Close]⟩
          | none =>
            if read.1.length > maxDNSMessageSize then
              .ok ⟨none, some .errResponseTooLarge, done.2, events ++ [.Close]⟩
            else
              .ok ⟨some (Unpack read.1).1, (Unpack read.1).2.map error.foreign, done.2,
                events ++ [.Unpack read.1, .Close]⟩

/-- The option constructors of proxy.go as data, to speak about the options a
caller passes: `withLbPolicy p`, `withLbRequestTimeout t`, `withLbMaxFails m`. -/
inductive lbOptionSpec where
  | policy (p : policy)
  | requestTimeout (t : Duration)
  | maxFails (m : Int)

/-- The option a description stands for. -/
def lbOptionSpec.toOption {σ Msg : Type} : lbOptionSpec → lbDNSClientOption σ Msg
  | .policy p => withLbPolicy p
  | .requestTimeout t => withLbRequestTimeout t
  | .maxFails m => withLbMaxFails m

/-- The value of the last `withLbMaxFails` option of a list, if there is one. -/
def lastMaxFails (specs : List lbOptionSpec) : Option Int :=
  (specs.filterMap (fun s => match s with
    | .maxFails m => some m
    | _ => none)).getLast?

/-- The test double `mockDNSClient` of proxy_test.go: it counts its calls in the
world and returns the expected message together with the configured error. -/
def mockDNSClient (err : Option error) : dnsClient Nat String :=
  ⟨fun _ _ w => ((some "expected", err), w + 1)⟩

/-- The test double `mockHTTPClientFunc` of proxy_test.go in the shape the
tests use it: an HTTP client that answers every request with `resp` and a nil
error. -/
def mockHTTPClientFunc (resp : httpResponse) : httpRequestDoer Unit :=
  ⟨fun _ w => ((some resp, none), w)⟩

/-- The response of `TestDNSClientLargeResponseError`, with the packed message
replaced by 28 arbitrary bytes: status 200 and a body of 1500 bytes. -/
def largeResponse : httpResponse :=
  ⟨200, ⟨List.replicate 28 0 ++ List.replicate 1472 97, none⟩⟩

/-- The events of a call of `dohDNSClient.Query`, whether it returns or
panics. -/
def dohEvents {σ Msg : Type} (o : Except (dohPanic σ) (dohResult σ Msg)) : List dohEvent :=
  match o with
  | .ok res => res.trace
  | .error p => p.trace

/-- The requests handed to `Do` among a list of events, in order. -/
def doRequests (events : List dohEvent) : List httpRequest :=
  events.filterMap (fun ev => match ev with
    | .Do req => some req
    | _ => none)

/-- The check of `url.Parse` (net/url) that a URL holds no ASCII control
character; the other reasons for which it rejects a URL are left out. -/
def urlControlCheck (url : String) : Option error :=
  if url.toList.any (fun ch => ch.toNat < 32 ∨ ch.toNat = 127) then
    some (.foreign "net/url: invalid control character in URL")
  else none

/-- The HTTP client of `TestDNSClientHttpClientError` (proxy_test.go): it answers
with the error "http error" together with a response of status 200. -/
def mockHTTPClientError : httpRequestDoer Unit :=
  ⟨fun _ w => ((some ⟨200, ⟨[100, 101, 102], none⟩⟩, some (.foreign "http error")), w)⟩

/-- The response of `TestDNSClientHttpStatusError` (proxy_test.go), with three
arbitrary bytes for the packed message: status 500. -/
def statusErrorResponse : httpResponse :=
  ⟨500, ⟨[100, 101, 102], none⟩⟩

/-! ## metrics.go and the instrumented transport of proxy.go -/

/-- The metric vectors of metrics.go as functions of their label values:
`RequestCount` by the label `to`, `RcodeCount` by `rcode` and the label `to`, `RequestDuration` by
the label `to`. A counter holds the number of its `Add(1)` calls, a histogram the values
it observed, in order. -/
structure Metrics where
  RequestCount : String → Nat
  RcodeCount : String → String → Nat
  RequestDuration : String → List Duration

/-- `RequestCount.WithLabelValues(to).Add(1)`. -/
def Metrics.addRequest (m : Metrics) (label : String) : Metrics :=
  ⟨fun l => if l = label then m.RequestCount l + 1 else m.RequestCount l,
    m.RcodeCount, m.RequestDuration⟩

/-- `RcodeCount.WithLabelValues(rc, to).Add(1)`. -/
def Metrics.addRcode (m : Metrics) (rc label : String) : Metrics :=
  ⟨m.RequestCount,
    fun l1 l2 => if l1 = rc ∧ l2 = label then m.RcodeCount l1 l2 + 1 else m.RcodeCount l1 l2,
    m.RequestDuration⟩

/-- `RequestDuration.WithLabelValues(to).Observe(v)`. -/
def Metrics.observe (m : Metrics) (label : String) (v : Duration) : Metrics :=
  ⟨m.RequestCount, m.RcodeCount,
    fun l => if l = label then m.RequestDuration l ++ [v] else m.RequestDuration l⟩

/-- The world of an instrumented transport: what the wrapped transport reaches
(`net`), the clock read by `time.Now` (nanoseconds), and the process-wide
metrics. The wrapped transport acts on all of it. -/
structure metricWorld (σ : Type) where
  net : σ
  now : Int
  metrics : Metrics

/-- `metricDNSClient`. -/
structure metricDNSClient (σ Msg : Type) where
  client : dnsClient (metricWorld σ) Msg
  addr : String

def newMetricDNSClient {σ Msg : Type} (client : dnsClient (metricWorld σ) Msg) (addr : String) :
    metricDNSClient σ Msg :=
  ⟨client, addr⟩

/-- What `metricDNSClient.Query` returns, with the world after the call and the
calls it made of the wrapped transport (context and request bytes). -/
structure metricResult (σ Msg : Type) where
  r : Option Msg
  err : Option error
  world : metricWorld σ
  calls : List (Context × Bytes)

/-- `metricDNSClient.Query`. `RcodeToString` stands for the table
`dns.RcodeToString` and `Rcode` for the field `Rcode` of `dns.Msg`;
`strconv.Itoa` is `toString` on integers. The observed value is the time elapsed
since `start` (its conversion to seconds, a float64, is left out). The panic is
the dereference of a nil message that comes with a nil error; it carries the
world and the calls made. -/
def metricDNSClient.Query {σ Msg : Type} (RcodeToString : Int → Option String)
    (Rcode : Msg → Int) (c : metricDNSClient σ Msg) (ctx : Context) (dnsreq : Bytes)
    (w : metricWorld σ) :
    Except (String × metricWorld σ × List (Context × Bytes)) (metricResult σ Msg) :=
  let start := w.now
  let out := c.client.Query ctx dnsreq w
  match out.1.2 with
  | some e => .ok ⟨out.1.1, some e, out.2, [(ctx, dnsreq)]⟩
  | none =>
    match out.1.1 with
    | none => .error ("nil pointer dereference", out.2, [(ctx, dnsreq)])
    | some r =>
      let rc := match RcodeToString (Rcode r) with
        | some name => name
        | none => toString (Rcode r)
      let m1 := out.2.metrics.addRequest c.addr
      let m2 := m1.addRcode rc c.addr
      let m3 := m2.observe c.addr (out.2.now - start)
      .ok ⟨some r, none, ⟨out.2.net, out.2.now, m3⟩, [(ctx, dnsreq)]⟩

/-- A transport for the examples: it takes 5 ms, reaches nothing else and
returns the message `m` with the error `err`. -/
def timedDNSClient (m : Option Int) (err : Option error) : dnsClient (metricWorld Unit) Int :=
  ⟨fun _ _ w => ((m, err), ⟨w.net, w.now + 5000000, w.metrics⟩)⟩

/-- Three entries of the table `dns.RcodeToString`, for the examples. -/
def rcodeNames (rcode : Int) : Option String :=
  if rcode = 0 then some "NOERROR"
  else if rcode = 2 then some "SERVFAIL"
  else if rcode = 3 then some "NXDOMAIN"
  else none

/-- A world for the examples: clock at 0, every counter at 0, no observation. -/
def zeroWorld : metricWorld Unit :=
  ⟨(), 0, ⟨fun _ => 0, fun _ _ => 0, fun _ => []⟩⟩

/-- The three policies of policy.go, in any state, as values of the `policy`
interface. -/
def policy.builtin (p : policy) : Prop :=
  (∃ r : randSource, p = newRandomPolicy r) ∨
  (∃ q : roundRobinPolicy, p = q.toPolicy) ∨
  (∃ s : sequentialPolicy, p = s.toPolicy)

/-! ## setup.go -/

def maxUpstreams : Nat := 15

/-- `caddy.Controller` (package caddy), as far as setup.go uses it: an object
with hidden state `κ` (the position in the token stream) and these methods.
`Args` is the call `c.Args(&target)` with one target: the value stored into the
target, or `none` when the call returns false and leaves the target alone. -/
structure Controller (κ : Type) where
  Next : κ → Bool × κ
  Args : κ → Option String × κ
  RemainingArgs : κ → List String × κ
  NextBlock : κ → Bool × κ
  Val : κ → String
  ArgErr : κ → error
  Errf : κ → String → error

/-- The library functions setup.go calls, for a type `τ` standing for
`tls.Config`: `plugin.Host(s).NormalizeExact()`, `plugin.Name(s).Normalize()`,
`url.ParseRequestURI` (its error, if any), `pkgtls.NewTLSConfigFromArgs`,
`new(tls.Config)`, the assignment of the field `ServerName`, and the generator
behind `newRandomPolicy`. -/
structure setupEnv (τ : Type) where
  NormalizeExact : String → List String
  Normalize : String → String
  ParseRequestURI : String → Option error
  NewTLSConfigFromArgs : List String → Except error τ
  newTLSConfig : τ
  setServerName : τ → String → τ
  rng : randSource

/-- `httpsConfig`; the field `from` is written `from_`, a nil `tlsConfig` or
`policy` is `none`. -/
structure httpsConfig (τ : Type) where
  from_ : String
  toURLs : List String
  except : List String
  tlsConfig : Option τ
  tlsServerName : String
  policy : Option policy

/-- `parseHost`. -/
def parseHost {τ : Type} (env : setupEnv τ) (hostAddr : String) : Except error String :=
  match env.NormalizeExact hostAddr with
  | [] => .error (.foreign ("unable to normalize '" ++ hostAddr ++ "'"))
  | host :: _ => .ok (env.Normalize host)

/-- The loop of `parseExcept`: `parseHost` applied to the entries in order,
stopping at the first error. -/
def parseHosts {τ : Type} (env : setupEnv τ) : List String → Except error (List String)
  | [] => .ok []
  | h :: rest =>
    match parseHost env h with
    | .error e => .error e
    | .ok h' =>
      match parseHosts env rest with
      | .error e => .error e
      | .ok rest' => .ok (h' :: rest')

/-- `parseExcept`; like the other property parsers it returns its error, the
configuration and the controller state after it. -/
def parseExcept {κ τ : Type} (env : setupEnv τ) (c : Controller κ) (conf : httpsConfig τ)
    (k : κ) : Option error × httpsConfig τ × κ :=
  let args := c.RemainingArgs k
  if args.1.length = 0 then (some (c.ArgErr args.2), conf, args.2)
  else
    match parseHosts env args.1 with
    | .error e => (some e, conf, args.2)
    | .ok except =>
      (none, ⟨conf.from_, conf.toURLs, except, conf.tlsConfig, conf.tlsServerName, conf.policy⟩,
        args.2)

/-- `parseTLS`. -/
def parseTLS {κ τ : Type} (env : setupEnv τ) (c : Controller κ) (conf : httpsConfig τ)
    (k : κ) : Option error × httpsConfig τ × κ :=
  let args := c.RemainingArgs k
  match env.NewTLSConfigFromArgs args.1 with
  | .error e => (some e, conf, args.2)
  | .ok tlsConfig =>
    (none, ⟨conf.from_, conf.toURLs, conf.except, some tlsConfig, conf.tlsServerName,
      conf.policy⟩, args.2)

/-- `parseTLSServerName`. -/
def parseTLSServerName {κ τ : Type} (c : Controller κ) (conf : httpsConfig τ) (k : κ) :
    Option error × httpsConfig τ × κ :=
  let args := c.RemainingArgs k
  match args.1 with
  | [name] =>
    (none, ⟨conf.from_, conf.toURLs, conf.except, conf.tlsConfig, name, conf.policy⟩, args.2)
  | _ => (some (c.ArgErr args.2), conf, args.2)

/-- `parsePolicy`. -/
def parsePolicy {κ τ : Type} (env : setupEnv τ) (c : Controller κ) (conf : httpsConfig τ)
    (k : κ) : Option error × httpsConfig τ × κ :=
  let args := c.RemainingArgs k
  match args.1 with
  | [name] =>
    if name = "random" then
      (none, ⟨conf.from_, conf.toURLs, conf.except, conf.tlsConfig, conf.tlsServerName,
        some (newRandomPolicy env.rng)⟩, args.2)
    else if name = "round_robin" then
      (none, ⟨conf.from_, conf.toURLs, conf.except, conf.tlsConfig, conf.tlsServerName,
        some newRoundRobinPolicy.toPolicy⟩, args.2)
    else if name = "sequential" then
      (none, ⟨conf.from_, conf.toURLs, conf.except, conf.tlsConfig, conf.tlsServerName,
        some (sequentialPolicy.toPolicy ⟨⟩)⟩, args.2)
    else (some (c.Errf args.2 ("unknown policy '" ++ name ++ "'")), conf, args.2)
  | _ => (some (c.ArgErr args.2), conf, args.2)

/-- `parseBlock`, with the lookup in `parseBlockMap` written as a case
distinction on `c.Val()`. -/
def parseBlock {κ τ : Type} (env : setupEnv τ) (c : Controller κ) (conf : httpsConfig τ)
    (k : κ) : Option error × httpsConfig τ × κ :=
  if c.Val k = "except" then parseExcept env c conf k
  else if c.Val k = "tls" then parseTLS env c conf k
  else if c.Val k = "tls_servername" then parseTLSServerName c conf k
  else if c.Val k = "policy" then parsePolicy env c conf k
  else (some (c.Errf k ("unknown property '" ++ c.Val k ++ "'")), conf, k)

/-- The loop `for _, to := range toURLs { ... }` of `parseConfig` (`addr` is the
loop variable `to`): the second argument is `conf.toURLs` so far. -/
def appendURLs {τ : Type} (env : setupEnv τ) : List String → List String →
    Option error × List String
  | [], acc => (none, acc)
  | addr :: rest, acc =>
    match env.ParseRequestURI ("https://" ++ addr) with
    | some e => (some e, acc)
    | none => appendURLs env rest (acc ++ ["https://" ++ addr])

/-- The loop `for c.NextBlock() { ... }` of `parseConfig`. Whether it ends is up
to the controller, so the first argument bounds the number of `NextBlock` calls;
`none` means the bound was reached. -/
def parseBlocks {κ τ : Type} (env : setupEnv τ) (c : Controller κ) :
    Nat → httpsConfig τ → κ → Option (Option error × httpsConfig τ × κ)
  | 0, _, _ => none
  | fuel + 1, conf, k =>
    let nb := c.NextBlock k
    if nb.1 then
      match parseBlock env c conf nb.2 with
      | (some e, conf', k') => some (some e, conf', k')
      | (none, conf', k') => parseBlocks env c fuel conf' k'
    else some (none, conf, nb.2)

/-- `parseConfig`: the pair `(conf, err)` it returns and the controller state
after it; `fuel` bounds the block loop. -/
def parseConfig {κ τ : Type} (env : setupEnv τ) (c : Controller κ) (fuel : Nat) (k : κ) :
    Option ((httpsConfig τ × Option error) × κ) :=
  let conf : httpsConfig τ := ⟨"", [], [], none, "", none⟩
  let nx := c.Next k
  if ¬ nx.1 then some ((conf, some (c.ArgErr nx.2)), nx.2)
  else
    let ar := c.Args nx.2
    match ar.1 with
    | none => some ((conf, some (c.ArgErr ar.2)), ar.2)
    | some from0 =>
      match parseHost env from0 with
      | .error e => some ((⟨"", [], [], none, "", none⟩, some e), ar.2)
      | .ok host =>
        let conf : httpsConfig τ := ⟨host, [], [], none, "", none⟩
        let ra := c.RemainingArgs ar.2
        if ra.1.length = 0 then some ((conf, some (c.ArgErr ra.2)), ra.2)
        else if ra.1.length > maxUpstreams then
          some ((conf, some (.foreign ("more than " ++ toString maxUpstreams
            ++ " TOs configured: " ++ toString ra.1.length))), ra.2)
        else
          let urls := appendURLs env ra.1 []
          let conf : httpsConfig τ := ⟨host, urls.2, [], none, "", none⟩
          match urls.1 with
          | some e => some ((conf, some e), ra.2)
          | none =>
            match parseBlocks env c fuel conf ra.2 with
            | none => none
            | some (some e, conf', k') => some ((conf', some e), k')
            | some (none, conf', k') =>
              if conf'.tlsServerName ≠ "" then
                some ((⟨conf'.from_, conf'.toURLs, conf'.except,
                  some (env.setServerName (conf'.tlsConfig.getD env.newTLSConfig)
                    conf'.tlsServerName), conf'.tlsServerName, conf'.policy⟩, none), k')
              else some ((conf', none), k')

/-- A controller over one line of tokens without blocks, for the examples:
`Next` takes the directive name, `Args` the next token, `RemainingArgs` all the
tokens left, and `NextBlock` finds no block. -/
def lineController : Controller (List String) where
  Next := fun k => match k with
    | [] => (false, [])
    | _ :: rest => (true, rest)
  Args := fun k => match k with
    | [] => (none, [])
    | a :: rest => (some a, rest)
  RemainingArgs := fun k => (k, [])
  NextBlock := fun k => (false, k)
  Val := fun _ => ""
  ArgErr := fun _ => .foreign "Wrong argument count or unexpected line ending"
  Errf := fun _ text => .foreign text

/-- Library functions for the examples: names are left as they are, every URL
parses, `tls.Config` is its server name. -/
def plainEnv : setupEnv String where
  NormalizeExact := fun s => [s]
  Normalize := fun s => s
  ParseRequestURI := fun _ => none
  NewTLSConfigFromArgs := fun _ => .ok ""
  newTLSConfig := ""
  setServerName := fun _ name => name
  rng := ⟨fun k => k⟩

/-! ## The context objects of `lbDNSClient.Query` -/

/-- A context object made by `context.WithTimeout`: its identity, the identities
of the contexts it is derived from (its parent first), its timeout, and whether
it is done. Identity 0 is the caller's context, the `ctx` parameter of `Query`;
it is not kept in the store and counts as not done. -/
structure scopeNode where
  id : Nat
  ancestors : List Nat
  timeout : Duration
  done : Bool
deriving DecidableEq, Repr

/-- The context objects made so far, oldest first. -/
abbrev scopeStore := List scopeNode

/-- The contexts the context `x` is derived from. -/
def scopeStore.ancestorsOf (s : scopeStore) (x : Nat) : List Nat :=
  match s.find? (fun nd => nd.id = x) with
  | some nd => nd.ancestors
  | none => []

/-- Whether the context `x` is done (`x.Err() != nil`). -/
def scopeStore.isDone (s : scopeStore) (x : Nat) : Bool :=
  match s.find? (fun nd => nd.id = x) with
  | some nd => nd.done
  | none => false

/-- `context.WithTimeout(parent, timeout)` (package context): a new context
object with an identity of its own, derived from `parent` and from what `parent`
is derived from. It is done from the start when `parent` is done, and when the
deadline has already passed (`timeout <= 0`). -/
def scopeStore.WithTimeout (s : scopeStore) (parent : Nat) (timeout : Duration) :
    Nat × scopeStore :=
  (s.length + 1,
    s ++ [⟨s.length + 1, parent :: scopeStore.ancestorsOf s parent, timeout,
      scopeStore.isDone s parent || decide (timeout ≤ 0)⟩])

/-- The `cancel` function of the context `x`, and likewise the expiry of its
timer (package context): `x` and the contexts derived from `x` become done, the
other contexts are left as they are. -/
def scopeStore.cancel (s : scopeStore) (x : Nat) : scopeStore :=
  s.map (fun nd =>
    if nd.id = x ∨ x ∈ nd.ancestors then ⟨nd.id, nd.ancestors, nd.timeout, true⟩ else nd)

/-- The events of `lbDNSClient.Query` with the context objects told apart: the
making of a scope (parent, timeout, the new scope), a call of the transport
`clients[client]` under a scope, with `done` telling whether that scope is
already done when the call is made, and the call of the `cancel` function of a
scope. -/
inductive scopeEvent where
  | WithTimeout (parent : Nat) (timeout : Duration) (scope : Nat)
  | Query (client : Nat) (scope : Nat) (done : Bool) (dnsreq : Bytes)
  | cancel (scope : Nat)
deriving DecidableEq, Repr

/-- Local state of a running `lbDNSClient.Query` as in `lbFrame`, with the
scopes whose `cancel` is deferred given by identity, and the context objects. -/
structure scopedFrame (σ Msg : Type) where
  r : Option Msg
  err : Option error
  world : σ
  trace : List scopeEvent
  deferred : List Nat
  store : scopeStore
deriving DecidableEq

/-- The loop of `lbDNSClient.Query` once more (see `lbDNSClient.attempts`), with
the context objects made explicit. The line
`ctx, cancel := context.WithTimeout(ctx, c.timeout)` makes a new object in every
iteration; its parent is the `ctx` parameter (identity 0), because the `ctx` it
declares is a variable of that iteration only. `cancel()` acts on the object of
the iteration. `expired i` tells whether the timer of the scope of the attempt
at position `i` fires while the transport call of that attempt is running. -/
def lbDNSClient.attemptsScoped {σ Msg : Type} (c : lbDNSClient σ Msg) (expired : Nat → Bool)
    (ids : IntSlice) (ctx : Context) (dnsreq : Bytes) :
    Nat → Nat → scopedFrame σ Msg →
      Except (String × scopedFrame σ Msg) (scopedFrame σ Msg)
  | 0, _, fr => .ok fr
  | n + 1, i, fr =>
    let made := scopeStore.WithTimeout fr.store 0 c.timeout
    let created := fr.trace ++ [scopeEvent.WithTimeout 0 c.timeout made.1]
    match c.lookup ids i with
    | none =>
      .error ("index out of range",
        ⟨fr.r, fr.err, fr.world, created, made.1 :: fr.deferred, made.2⟩)
    | some (id, cl) =>
      let out := cl.Query (Context.WithTimeout ctx c.timeout) dnsreq fr.world
      let called := created
        ++ [scopeEvent.Query id made.1 (scopeStore.isDone made.2 made.1) dnsreq]
      let returned := if expired i then scopeStore.cancel made.2 made.1 else made.2
      match out.1.2 with
      | none => .ok ⟨out.1.1, none, out.2, called, made.1 :: fr.deferred, returned⟩
      | some e =>
        lbDNSClient.attemptsScoped c expired ids ctx dnsreq n (i + 1)
          ⟨out.1.1, some e, out.2, called ++ [scopeEvent.cancel made.1],
            made.1 :: fr.deferred, scopeStore.cancel returned made.1⟩

/-- The deferred `cancel` calls, run when the function returns or panics, the
last deferred first. -/
def scopedFrame.runDeferred {σ Msg : Type} (fr : scopedFrame σ Msg) : scopedFrame σ Msg :=
  ⟨fr.r, fr.err, fr.world, fr.trace ++ fr.deferred.map scopeEvent.cancel, [],
    fr.deferred.foldl scopeStore.cancel fr.store⟩

/-- `lbDNSClient.Query` once more (see `lbDNSClient.Query`), with the context
objects made explicit: the frame at the return, or the panic with the frame it
leaves. -/
def lbDNSClient.QueryScoped {σ Msg : Type} (c : lbDNSClient σ Msg) (expired : Nat → Bool)
    (ctx : Context) (dnsreq : Bytes) (w : σ) :
    Except (String × scopedFrame σ Msg) (scopedFrame σ Msg) :=
  match (c.p.List c.clients.length).1 with
  | .error e => .error (e, ⟨none, none, w, [], [], []⟩)
  | .ok ids =>
    match c.attemptsScoped expired ids ctx dnsreq c.maxFails.toNat 0
        ⟨none, none, w, [], [], []⟩ with
    | .error (e, fr) => .error (e, fr.runDeferred)
    | .ok fr => .ok fr.runDeferred

/-- An event with the identity of its scope forgotten: `scope` is the `Context`
value every scope of the call stands for. The making of a scope leaves no event
in `lbEvent`. -/
def scopeEvent.erase (scope : Context) : scopeEvent → Option lbEvent
  | .WithTimeout _ _ _ => none
  | .Query client _ _ dnsreq => some (lbEvent.Query client scope dnsreq)
  | .cancel _ => some (lbEvent.cancel scope)

/-- A frame with the identities forgotten. -/
def scopedFrame.erase {σ Msg : Type} (scope : Context) (fr : scopedFrame σ Msg) :
    lbFrame σ Msg :=
  ⟨fr.r, fr.err, fr.world, fr.trace.filterMap (scopeEvent.erase scope),
    fr.deferred.map (fun _ => scope)⟩

/-- The outcome of `QueryScoped` with the identities forgotten, in the shape of
the outcome of `Query`. -/
def eraseScopes {σ Msg : Type} (scope : Context)
    (o : Except (String × scopedFrame σ Msg) (scopedFrame σ Msg)) :
    Except (lbPanic σ) (lbResult σ Msg) :=
  match o with
  | .ok fr => .ok ⟨fr.r, fr.err, fr.world, fr.trace.filterMap (scopeEvent.erase scope)⟩
  | .error (e, fr) => .error ⟨e, fr.world, fr.trace.filterMap (scopeEvent.erase scope)⟩

/-- The store that holds `n` scopes, each made from the caller's context alone
with the given timeout: scope `j + 1` is the one of the attempt at position `j`,
and `done j` tells whether it is done. -/
def scopesWith (timeout : Duration) (done : Nat → Bool) (n : Nat) : scopeStore :=
  (List.range n).map (fun j => ⟨j + 1, [0], timeout, done j⟩)

/-! ## Theorems -/

theorem fillLoop_eq (k : Nat) : ∀ (i : Nat) (pre : List Int) (post : List Int),
    pre.length = i → post.length = k →
    fillLoop k i (pre ++ post) = pre ++ (List.range' i k).map (fun j : Nat => (j : Int)) := by
  induction k with
  | zero =>
    intro i pre post _ hpost
    have : post = [] := List.length_eq_zero.mp hpost
    simp [fillLoop, this]
  | succ k ih =>
    intro i pre post hpre hpost
    obtain ⟨x, post, rfl⟩ := List.exists_cons_of_length_eq_add_one hpost
    have hset : (pre ++ x :: post).set i (i : Int) = (pre ++ [(i : Int)]) ++ post := by
      subst hpre
      simp [List.set_append]
    rw [fillLoop, hset, ih (i + 1) (pre ++ [(i : Int)]) post (by simp [hpre]) (by simpa using hpost)]
    simp [List.range'_succ]

theorem appendLoop_eq (k : Nat) : ∀ (result : IntSlice) (j : Nat),
    appendLoop result j k = result ++ (List.range' j k).map (fun x : Nat => (x : Int)) := by
  induction k with
  | zero => intro result j; simp [appendLoop]
  | succ k ih =>
    intro result j
    rw [appendLoop, ih]
    simp [List.range'_succ]

/-- The two loops of `roundRobinPolicy.List` started at `i ≤ n`. -/
theorem appendLoop_wrap (n i : Nat) :
    appendLoop (appendLoop [] i (n - i)) 0 i
      = (List.range' i (n - i) ++ List.range i).map (fun x : Nat => (x : Int)) := by
  rw [appendLoop_eq, appendLoop_eq]
  simp [List.range_eq_range']

theorem range_split (n i : Nat) (h : i ≤ n) :
    List.range n = List.range i ++ List.range' i (n - i) := by
  have := List.range'_append 0 i (n - i) 1
  simp only [Nat.zero_add, Nat.one_mul] at this
  rw [List.range_eq_range', List.range_eq_range', this]
  congr 1
  omega

theorem range_rotate (n i : Nat) (h : i ≤ n) :
    (List.range n).rotate i = List.range' i (n - i) ++ List.range i := by
  rw [List.rotate_eq_drop_append_take (by simpa using h)]
  conv_lhs => rw [range_split n i h]
  rw [List.drop_left' (by simp), List.take_left' (by simp)]

/-- Closed form of `roundRobinPolicy.List` for pool lengths that fit in a
`uint32`. -/
theorem roundRobinPolicy_List_eq (p : roundRobinPolicy) (n : Int) (h1 : 1 ≤ n)
    (h2 : n < 2 ^ 32) :
    p.List n =
      (.ok (((List.range n.toNat).rotate ((p.robin + 1) % 2 ^ 32)).map (fun x : Nat => (x : Int))),
        ⟨(p.robin + 1) % 2 ^ 32⟩) := by
  have hn : ¬ n ≤ 0 := by omega
  have hlt : n.toNat < 2 ^ 32 := by omega
  have hpos : 0 < n.toNat := by omega
  have hm : n.toNat % 2 ^ 32 = n.toNat := Nat.mod_eq_of_lt hlt
  have hm0 : ¬ n.toNat % 2 ^ 32 = 0 := by omega
  have hi : (p.robin + 1) % 2 ^ 32 % n.toNat ≤ n.toNat := (Nat.mod_lt _ hpos).le
  have hrot : (List.range n.toNat).rotate ((p.robin + 1) % 2 ^ 32)
      = (List.range n.toNat).rotate ((p.robin + 1) % 2 ^ 32 % n.toNat) := by
    have := List.rotate_mod (List.range n.toNat) ((p.robin + 1) % 2 ^ 32)
    rw [List.length_range] at this
    exact this.symm
  simp only [roundRobinPolicy.List, hn, if_false, hm0]
  rw [hm, appendLoop_wrap, hrot, range_rotate _ _ hi]

/-- The conversion `uint32(poolLen)` keeps the low 32 bits only: for a pool
length of `2 ^ 32` the divisor is zero and the call panics, the cursor having
advanced. This is why the statements below about returned orderings take
`poolLen < 2 ^ 32`. -/
theorem roundRobinPolicy_List_truncation :
    (⟨0⟩ : roundRobinPolicy).List (2 ^ 32) = (.error "integer divide by zero", ⟨1⟩) := by
  decide

theorem range_rotate_head (n c : Nat) (hn : 0 < n) :
    ((List.range n).rotate c).head? = some (c % n) := by
  have h := List.rotate_mod (List.range n) c
  rw [List.length_range] at h
  rw [← h, List.head?_rotate (by simpa using Nat.mod_lt c hn)]
  simp [Nat.mod_lt c hn]

/-- Two successive round-robin calls with the same pool length, in closed
form. -/
theorem roundRobinPolicy_two_calls (p : roundRobinPolicy) (n : Int) (h1 : 1 ≤ n)
    (h2 : n < 2 ^ 32)
    (hw : (p.robin + 1) % 2 ^ 32 ≠ 2 ^ 32 - 1 ∨ n.toNat ∣ 2 ^ 32) :
    ((p.List n).2.List n).1
      = .ok (((List.range n.toNat).rotate ((p.robin + 1) % 2 ^ 32 + 1)).map
          (fun x : Nat => (x : Int))) := by
  rw [roundRobinPolicy_List_eq p n h1 h2, roundRobinPolicy_List_eq _ n h1 h2]
  simp only
  have hc : (p.robin + 1) % 2 ^ 32 < 2 ^ 32 := Nat.mod_lt _ (by norm_num)
  rcases hw with hw | hw
  · have : ((p.robin + 1) % 2 ^ 32 + 1) % 2 ^ 32 = (p.robin + 1) % 2 ^ 32 + 1 :=
      Nat.mod_eq_of_lt (by omega)
    rw [this]
  · by_cases hlast : (p.robin + 1) % 2 ^ 32 = 2 ^ 32 - 1
    · have e1 : ((p.robin + 1) % 2 ^ 32 + 1) % 2 ^ 32 = 0 := by rw [hlast]; norm_num
      have e2 : (p.robin + 1) % 2 ^ 32 + 1 = 2 ^ 32 := by rw [hlast]; norm_num
      rw [e1, e2]
      have h := List.rotate_mod (List.range n.toNat) (2 ^ 32)
      rw [List.length_range, Nat.mod_eq_zero_of_dvd hw] at h
      rw [h]
    · have : ((p.robin + 1) % 2 ^ 32 + 1) % 2 ^ 32 = (p.robin + 1) % 2 ^ 32 + 1 :=
        Nat.mod_eq_of_lt (by omega)
      rw [this]

/-- C5, counterexample. With the cursor at `2 ^ 32 - 2` and `n = 3` the two
successive calls both return `[0, 1, 2]`: the cursor passes from `2 ^ 32 - 1` to
`0` and both are multiples of 3, so the second result is not the first rotated
by one. -/
theorem roundRobinPolicy_wrap_repeats :
    ((⟨2 ^ 32 - 2⟩ : roundRobinPolicy).List 3).1 = .ok [0, 1, 2] ∧
      ((((⟨2 ^ 32 - 2⟩ : roundRobinPolicy).List 3).2).List 3).1 = .ok [0, 1, 2] ∧
      ([0, 1, 2] : List Int).rotate 1 ≠ [0, 1, 2] := by
  decide

/-- C5, amended. For `1 ≤ n < 2 ^ 32`, when the cursor does not wrap from
`2 ^ 32 - 1` to `0` between the two calls or `n` divides `2 ^ 32`, the second
of two successive `List(n)` results is the first rotated left by one position
and starts at the first result's first index plus one, mod `n`; a fresh policy
returns `[0, ..., n-1]` on its first call, and for `n = 3` its first four calls
return `[0,1,2]`, `[1,2,0]`, `[2,0,1]`, `[0,1,2]`. -/
theorem roundRobinPolicy_rotation (p : roundRobinPolicy) (n : Int) (h1 : 1 ≤ n)
    (h2 : n < 2 ^ 32) :
    ((p.robin + 1) % 2 ^ 32 ≠ 2 ^ 32 - 1 ∨ n.toNat ∣ 2 ^ 32 →
      ∃ l1 l2 : IntSlice, (p.List n).1 = .ok l1 ∧ ((p.List n).2.List n).1 = .ok l2 ∧
        l2 = l1.rotate 1 ∧ l2.head? = l1.head?.map (fun a => (a + 1) % n)) ∧
    (newRoundRobinPolicy.List n).1 = .ok ((List.range n.toNat).map (fun x : Nat => (x : Int))) ∧
    ((newRoundRobinPolicy.List 3).1 = .ok [0, 1, 2] ∧
      ((newRoundRobinPolicy.List 3).2.List 3).1 = .ok [1, 2, 0] ∧
      (((newRoundRobinPolicy.List 3).2.List 3).2.List 3).1 = .ok [2, 0, 1] ∧
      ((((newRoundRobinPolicy.List 3).2.List 3).2.List 3).2.List 3).1 = .ok [0, 1, 2]) := by
  have hpos : 0 < n.toNat := by omega
  have hcast : ((n.toNat : Nat) : Int) = n := Int.toNat_of_nonneg (by omega)
  refine ⟨?_, ?_, by decide⟩
  · intro hw
    refine ⟨_, _, by rw [roundRobinPolicy_List_eq p n h1 h2],
      roundRobinPolicy_two_calls p n h1 h2 hw, ?_, ?_⟩
    · rw [← List.map_rotate, List.rotate_rotate]
    · rw [List.head?_map, List.head?_map, range_rotate_head _ _ hpos,
        range_rotate_head _ _ hpos]
      simp only [Option.map_some']
      congr 1
      rw [← hcast]
      norm_cast
      rw [Nat.mod_add_mod]
  · rw [roundRobinPolicy_List_eq _ n h1 h2]
    simp [newRoundRobinPolicy]

theorem roundRobinPolicy_rotation_witness :
    ∃ l1 l2 : IntSlice, ((⟨7⟩ : roundRobinPolicy).List 3).1 = .ok l1 ∧
      (((⟨7⟩ : roundRobinPolicy).List 3).2.List 3).1 = .ok l2 ∧
      l2 = l1.rotate 1 ∧ l2.head? = l1.head?.map (fun a => (a + 1) % 3) :=
  (roundRobinPolicy_rotation ⟨7⟩ 3 (by decide) (by decide)).1 (Or.inl (by decide))

/-- C6, counterexample. `List(0)` returns before the atomic increment: the
cursor 5 stays 5 instead of advancing to 6. -/
theorem roundRobinPolicy_zero_keeps_cursor :
    ((⟨5⟩ : roundRobinPolicy).List 0).2.robin = 5 ∧
      ((⟨5⟩ : roundRobinPolicy).List 0).2.robin ≠ (5 + 1) % 2 ^ 32 := by
  decide

/-- C6, amended. `List(N)` leaves the cursor unchanged when `N ≤ 0`; for
`1 ≤ N < 2 ^ 32` it advances the cursor by exactly one modulo `2 ^ 32`,
whatever `N` is, and returns `[c, c+1, ..., N-1, 0, ..., c-1]` where `c` is the
advanced cursor taken mod `N`. -/
theorem roundRobinPolicy_cursor (p : roundRobinPolicy) (n : Int) :
    (n ≤ 0 → (p.List n).2 = p) ∧
    (1 ≤ n → n < 2 ^ 32 → (p.List n).2.robin = (p.robin + 1) % 2 ^ 32) ∧
    (1 ≤ n → n < 2 ^ 32 →
      (p.List n).1 = .ok ((List.range' ((p.List n).2.robin % n.toNat)
          (n.toNat - (p.List n).2.robin % n.toNat)
        ++ List.range ((p.List n).2.robin % n.toNat)).map (fun x : Nat => (x : Int)))) := by
  refine ⟨?_, ?_, ?_⟩
  · intro hn
    simp [roundRobinPolicy.List, hn]
  · intro h1 h2
    rw [roundRobinPolicy_List_eq p n h1 h2]
  · intro h1 h2
    have hpos : 0 < n.toNat := by omega
    rw [roundRobinPolicy_List_eq p n h1 h2]
    simp only
    have h := List.rotate_mod (List.range n.toNat) ((p.robin + 1) % 2 ^ 32)
    rw [List.length_range] at h
    rw [← h, range_rotate _ _ (Nat.mod_lt _ hpos).le]

theorem roundRobinPolicy_cursor_witness :
    ((⟨4⟩ : roundRobinPolicy).List 0).2 = ⟨4⟩ ∧
      ((⟨4⟩ : roundRobinPolicy).List 3).2.robin = (4 + 1) % 2 ^ 32 ∧
      ((⟨4⟩ : roundRobinPolicy).List 2).2.robin = (4 + 1) % 2 ^ 32 :=
  ⟨(roundRobinPolicy_cursor ⟨4⟩ 0).1 (by decide),
    (roundRobinPolicy_cursor ⟨4⟩ 3).2.1 (by decide) (by decide),
    (roundRobinPolicy_cursor ⟨4⟩ 2).2.1 (by decide) (by decide)⟩

theorem set_perm_cons_eraseIdx_aux {α : Type} (a : α) :
    ∀ (l : List α) (n : Nat), n < l.length → List.Perm (l.set n a) (a :: l.eraseIdx n)
  | [], _, h => by simp at h
  | _ :: tl, 0, _ => by simp
  | h :: tl, n + 1, hn => by
    have ih := set_perm_cons_eraseIdx_aux a tl n (by simpa using hn)
    simp only [List.set_cons_succ, List.eraseIdx_cons_succ]
    exact (ih.cons h).trans (List.Perm.swap a h _)

/-- The assignment pair `m[i] = m[j]; m[j] = x` with `j < i` rearranges the
list obtained by the single assignment `m[i] = x`. -/
theorem set_set_shuffle (x : Int) :
    ∀ (t : List Int) (i j : Nat), j < i → i < t.length →
      List.Perm ((t.set i (t.getD j 0)).set j x) (t.set i x)
  | [], _, _, _, h => by simp at h
  | _ :: _, 0, _, hji, _ => by omega
  | h :: tl, i + 1, 0, _, hi => by
    have hi2 : i < tl.length := by simpa using hi
    simp only [List.getD_cons_zero, List.set_cons_succ, List.set_cons_zero]
    have p1 := set_perm_cons_eraseIdx_aux h tl i hi2
    have p2 := set_perm_cons_eraseIdx_aux x tl i hi2
    exact ((p1.cons x).trans (List.Perm.swap h x _)).trans (p2.cons h).symm
  | h :: tl, i + 1, j + 1, hji, hi => by
    have ih := set_set_shuffle x tl i j (by omega) (by simpa using hi)
    simp only [List.getD_cons_succ, List.set_cons_succ]
    exact ih.cons h

theorem shuffle_step (m : List Int) (i j : Nat) (hi : i < m.length) (hj : j ≤ i) :
    List.Perm (((m.set i (m.getD j 0)).set j (i : Int)).take (i + 1))
      ((i : Int) :: m.take i) := by
  have h1 : ((m.set i (m.getD j 0)).set j (i : Int)).take (i + 1)
      = (((m.take (i + 1)).set i ((m.take (i + 1)).getD j 0)).set j (i : Int)) := by
    rw [List.set_take, List.set_take]
    congr 2
    rw [List.getD_eq_getElem?_getD, List.getD_eq_getElem?_getD, List.getElem?_take_of_lt (by omega)]
  have hlen : i < (m.take (i + 1)).length := by simp; omega
  have h2 : (m.take (i + 1)).set i (i : Int) = m.take i ++ [(i : Int)] := by
    rw [List.take_succ, List.getElem?_eq_getElem hi]
    simp only [Option.toList_some]
    rw [List.set_append_right _ _ (by simp)]
    have hz : i - (List.take i m).length = 0 := by
      rw [List.length_take, Nat.min_eq_left hi.le, Nat.sub_self]
    rw [hz, List.set_cons_zero]
  have h3 : List.Perm (((m.take (i + 1)).set i ((m.take (i + 1)).getD j 0)).set j (i : Int))
      ((m.take (i + 1)).set i (i : Int)) := by
    rcases Nat.lt_or_ge j i with hlt | hge
    · exact set_set_shuffle _ _ i j hlt hlen
    · have : j = i := by omega
      subst this
      rw [List.set_set]
  rw [h1]
  exact h3.trans (by rw [h2]; exact List.perm_append_singleton _ _)

theorem permLoop_perm (k : Nat) : ∀ (i : Nat) (m : List Int) (r : randSource),
    m.length = i + k →
    List.Perm (m.take i) ((List.range i).map (fun x : Nat => (x : Int))) →
    List.Perm (rand.permLoop k i m r).1 ((List.range (i + k)).map (fun x : Nat => (x : Int))) := by
  induction k with
  | zero =>
    intro i m r hlen hperm
    rw [List.take_of_length_le (by omega)] at hperm
    simpa [rand.permLoop] using hperm
  | succ k ih =>
    intro i m r hlen hperm
    rw [rand.permLoop]
    have hj : (r.Intn (i + 1)).1 ≤ i := by
      have : r.draws 0 % (i + 1) < i + 1 := Nat.mod_lt _ (by omega)
      simp only [randSource.Intn]
      omega
    have hstep := shuffle_step m i (r.Intn (i + 1)).1 (by omega) hj
    have := ih (i + 1) _ (r.Intn (i + 1)).2 (by simp; omega)
      (hstep.trans (by
        rw [List.range_succ, List.map_append]
        exact ((List.perm_append_singleton _ _).symm.trans
          (List.Perm.append_right _ hperm))))
    rw [show i + (k + 1) = i + 1 + k by omega]
    exact this

theorem rand_Perm_perm (r : randSource) (n : Nat) :
    List.Perm (rand.Perm r n).1 ((List.range n).map (fun x : Nat => (x : Int))) := by
  have := permLoop_perm n 0 (List.replicate n 0) r (by simp) (by simp)
  simpa [rand.Perm] using this

/-- C7. For every `n ≥ 1` and every outcome of the random source,
`randomPolicy.List(n)` is a permutation of `[0, n)`: it has length `n`, every
element lies in `[0, n)`, and every index of `[0, n)` occurs exactly once. -/
theorem randomPolicy_List_permutation (r : randSource) (n : Int) (hn : 1 ≤ n) :
    List.Perm (randomPolicy.List r n).1 ((List.range n.toNat).map (fun x : Nat => (x : Int))) ∧
    ((randomPolicy.List r n).1.length : Int) = n ∧
    (∀ x ∈ (randomPolicy.List r n).1, 0 ≤ x ∧ x < n) ∧
    (∀ x : Int, 0 ≤ x → x < n → (randomPolicy.List r n).1.count x = 1) := by
  have h0 : ¬ n ≤ 0 := by omega
  have hp : List.Perm (randomPolicy.List r n).1
      ((List.range n.toNat).map (fun x : Nat => (x : Int))) := by
    simp only [randomPolicy.List, h0, if_false]
    exact rand_Perm_perm r n.toNat
  refine ⟨hp, ?_, ?_, ?_⟩
  · rw [hp.length_eq]
    simp
    omega
  · intro x hx
    have := hp.mem_iff.mp hx
    simp only [List.mem_map, List.mem_range] at this
    obtain ⟨k, hk, rfl⟩ := this
    omega
  · intro x hx0 hxn
    rw [hp.count_eq]
    apply List.count_eq_one_of_mem
    · exact (List.nodup_range _).map (fun a b h => by exact_mod_cast h)
    · simp only [List.mem_map, List.mem_range]
      exact ⟨x.toNat, by omega, by omega⟩

theorem randomPolicy_List_permutation_witness :
    (1 : Int) ≤ 4 ∧ (randomPolicy.List ⟨fun k => 3 * k + 1⟩ 4).1.length = 4 ∧
      List.Perm (randomPolicy.List ⟨fun k => 3 * k + 1⟩ 4).1
        ((List.range (4 : Int).toNat).map (fun x : Nat => (x : Int))) :=
  ⟨by decide, by decide,
    (randomPolicy_List_permutation ⟨fun k => 3 * k + 1⟩ 4 (by decide)).1⟩


section lb

variable {σ Msg : Type}

/-- A valid position of a valid ordering selects a transport. -/
theorem lookup_of_valid (c : lbDNSClient σ Msg) (ids : IntSlice) (j : Nat)
    (hj : j < ids.length) (hvalid : ∀ id ∈ ids, 0 ≤ id ∧ id < c.clients.length) :
    ∃ cl, c.lookup ids j = some ((ids.getD j 0).toNat, cl) := by
  have hmem : ids[j] ∈ ids := List.getElem_mem hj
  obtain ⟨h0, h1⟩ := hvalid _ hmem
  have hlt : (ids[j]).toNat < c.clients.length := by omega
  refine ⟨c.clients[(ids[j]).toNat], ?_⟩
  simp only [lbDNSClient.lookup, List.getElem?_eq_getElem hj, List.getD_eq_getElem?_getD,
    Option.getD_some, List.getElem?_eq_getElem hlt, Option.map_some']
  rw [if_neg (by omega)]

/-- A run of `n` failing attempts starting at position `i`: the loop continues
at position `i + n` with the frame described. -/
theorem attempts_failures (c : lbDNSClient σ Msg) (ids : IntSlice) (ctx : Context)
    (dnsreq : Bytes) (ws : Nat → σ) (reply : Nat → Option Msg × Option error) :
    ∀ (n m i : Nat) (fr : lbFrame σ Msg), fr.world = ws i →
      (∀ j, i ≤ j → j < i + n → ∃ cl, c.lookup ids j = some ((ids.getD j 0).toNat, cl) ∧
        cl.Query (.WithTimeout ctx c.timeout) dnsreq (ws j) = (reply j, ws (j + 1)) ∧
        (reply j).2 ≠ none) →
      ∃ fr' : lbFrame σ Msg,
        c.attempts ids ctx dnsreq (n + m) i fr = c.attempts ids ctx dnsreq m (i + n) fr' ∧
        fr'.world = ws (i + n) ∧
        fr'.trace = fr.trace ++ (List.range' i n).flatMap (fun j =>
          [lbEvent.Query (ids.getD j 0).toNat (.WithTimeout ctx c.timeout) dnsreq,
            lbEvent.cancel (.WithTimeout ctx c.timeout)]) ∧
        fr'.deferred = List.replicate n (Context.WithTimeout ctx c.timeout) ++ fr.deferred ∧
        (0 < n → fr'.r = (reply (i + n - 1)).1 ∧ fr'.err = (reply (i + n - 1)).2) ∧
        (n = 0 → fr' = fr) := by
  intro n
  induction n with
  | zero =>
    intro m i fr hw _
    exact ⟨fr, by simp, by simpa using hw, by simp, by simp, by simp, fun _ => rfl⟩
  | succ n ih =>
    intro m i fr hw hfail
    obtain ⟨cl, hl, hq, hne⟩ := hfail i (le_refl _) (by omega)
    obtain ⟨e, he⟩ := Option.ne_none_iff_exists'.mp hne
    have hq' : cl.Query (.WithTimeout ctx c.timeout) dnsreq fr.world = (reply i, ws (i + 1)) := by
      rw [hw]; exact hq
    obtain ⟨fr', h1, h2, h3, h4, h5, h6⟩ := ih m (i + 1)
      ⟨(reply i).1, some e, ws (i + 1),
        fr.trace ++ [lbEvent.Query (ids.getD i 0).toNat (.WithTimeout ctx c.timeout) dnsreq]
          ++ [lbEvent.cancel (.WithTimeout ctx c.timeout)],
        Context.WithTimeout ctx c.timeout :: fr.deferred⟩ rfl
      (fun j hj1 hj2 => hfail j (by omega) (by omega))
    refine ⟨fr', ?_, ?_, ?_, ?_, ?_, ?_⟩
    · rw [show n + 1 + m = (n + m) + 1 by omega, lbDNSClient.attempts]
      simp only [hl, hq', he]
      rw [h1, show i + 1 + n = i + (n + 1) by omega]
    · rw [h2, show i + 1 + n = i + (n + 1) by omega]
    · rw [h3]
      simp [List.range'_succ, List.flatMap_cons]
    · rw [h4]
      simp [List.replicate_succ']
    · intro _
      rcases Nat.eq_zero_or_pos n with hn | hn
      · subst hn
        rw [h6 rfl]
        simp [he]
      · have := h5 hn
        rw [show i + (n + 1) - 1 = i + 1 + n - 1 by omega]
        exact this
    · intro h; omega

/-- C1. When the policy returns an ordering `ids` of valid indices with at least
`maxFails` entries and `k < maxFails` is the first position whose transport
returns a nil error (`ws j` is the world before the attempt at position `j`,
`reply j` what that attempt returns), `Query` returns the message of the
attempt at position `k` with a nil error, and the events of the call are: for
each `j < k` the call of `clients[ids[j]]` with the request bytes followed by
its `cancel`, then the call of `clients[ids[k]]` with the request bytes, then
only the `k + 1` deferred `cancel` calls. No other transport call occurs. -/
theorem lbDNSClient_Query_first_success (c : lbDNSClient σ Msg) (ctx : Context)
    (dnsreq : Bytes) (w : σ) (ids : IntSlice) (k : Nat) (ws : Nat → σ)
    (reply : Nat → Option Msg × Option error)
    (hids : (c.p.List c.clients.length).1 = .ok ids)
    (hvalid : ∀ id ∈ ids, 0 ≤ id ∧ id < c.clients.length)
    (hlen : c.maxFails ≤ ids.length)
    (hk : (k : Int) < c.maxFails)
    (hw : ws 0 = w)
    (hrun : ∀ j ≤ k, ∀ id cl, c.lookup ids j = some (id, cl) →
      cl.Query (.WithTimeout ctx c.timeout) dnsreq (ws j) = (reply j, ws (j + 1)))
    (hfail : ∀ j < k, (reply j).2 ≠ none)
    (hsucc : (reply k).2 = none) :
    (c.Query ctx dnsreq w).1 = .ok ⟨(reply k).1, none, ws (k + 1),
      (List.range k).flatMap (fun j =>
          [lbEvent.Query (ids.getD j 0).toNat (.WithTimeout ctx c.timeout) dnsreq,
            lbEvent.cancel (.WithTimeout ctx c.timeout)])
        ++ lbEvent.Query (ids.getD k 0).toNat (.WithTimeout ctx c.timeout) dnsreq
          :: List.replicate (k + 1) (lbEvent.cancel (.WithTimeout ctx c.timeout))⟩ := by
  have hex : ∀ j ≤ k, ∃ cl, c.lookup ids j = some ((ids.getD j 0).toNat, cl) ∧
      cl.Query (.WithTimeout ctx c.timeout) dnsreq (ws j) = (reply j, ws (j + 1)) := by
    intro j hj
    obtain ⟨cl, hl⟩ := lookup_of_valid c ids j (by omega) hvalid
    exact ⟨cl, hl, hrun j hj _ cl hl⟩
  obtain ⟨fr, h1, h2, h3, h4, _, _⟩ := attempts_failures c ids ctx dnsreq ws reply k
    (c.maxFails.toNat - k - 1 + 1) 0 ⟨none, none, w, [], []⟩ hw.symm
    (fun j _ hj => by
      obtain ⟨cl, hl, hq⟩ := hex j (by omega)
      exact ⟨cl, hl, hq, hfail j (by omega)⟩)
  obtain ⟨cl, hl, hq⟩ := hex k (le_refl _)
  have hsplit : c.maxFails.toNat = k + (c.maxFails.toNat - k - 1 + 1) := by omega
  have hq' : cl.Query (.WithTimeout ctx c.timeout) dnsreq fr.world = (reply k, ws (k + 1)) := by
    rw [h2, Nat.zero_add]; exact hq
  have hloop : c.attempts ids ctx dnsreq c.maxFails.toNat 0 ⟨none, none, w, [], []⟩
      = .ok ⟨(reply k).1, none, ws (k + 1),
          fr.trace ++ [lbEvent.Query (ids.getD k 0).toNat (.WithTimeout ctx c.timeout) dnsreq],
          Context.WithTimeout ctx c.timeout :: fr.deferred⟩ := by
    rw [hsplit, h1, Nat.zero_add, lbDNSClient.attempts]
    simp only [hl, hq', hsucc]
  simp only [lbDNSClient.Query, hids, hloop, h3, h4]
  simp [List.range_eq_range', List.replicate_succ]

/-- C2. When `maxFails ≥ 1` and the transports at positions
`0, ..., maxFails - 1` of the ordering all return an error, the events of the
call are exactly `maxFails` transport calls, each followed by its `cancel`, and
then the deferred `cancel` calls; `Query` returns the message and the error of
the attempt at position `maxFails - 1`. -/
theorem lbDNSClient_Query_exhausted (c : lbDNSClient σ Msg) (ctx : Context)
    (dnsreq : Bytes) (w : σ) (ids : IntSlice) (ws : Nat → σ)
    (reply : Nat → Option Msg × Option error)
    (hids : (c.p.List c.clients.length).1 = .ok ids)
    (hpos : 1 ≤ c.maxFails)
    (hw : ws 0 = w)
    (hall : ∀ j : Nat, (j : Int) < c.maxFails →
      ∃ cl, c.lookup ids j = some ((ids.getD j 0).toNat, cl) ∧
        cl.Query (.WithTimeout ctx c.timeout) dnsreq (ws j) = (reply j, ws (j + 1)) ∧
        (reply j).2 ≠ none) :
    (c.Query ctx dnsreq w).1 = .ok ⟨(reply (c.maxFails.toNat - 1)).1,
      (reply (c.maxFails.toNat - 1)).2, ws c.maxFails.toNat,
      (List.range c.maxFails.toNat).flatMap (fun j =>
          [lbEvent.Query (ids.getD j 0).toNat (.WithTimeout ctx c.timeout) dnsreq,
            lbEvent.cancel (.WithTimeout ctx c.timeout)])
        ++ List.replicate c.maxFails.toNat (lbEvent.cancel (.WithTimeout ctx c.timeout))⟩ := by
  obtain ⟨fr, h1, h2, h3, h4, h5, _⟩ := attempts_failures c ids ctx dnsreq ws reply
    c.maxFails.toNat 0 0 ⟨none, none, w, [], []⟩ hw.symm
    (fun j _ hj => hall j (by omega))
  obtain ⟨h5r, h5e⟩ := h5 (by omega)
  have hloop : c.attempts ids ctx dnsreq c.maxFails.toNat 0 ⟨none, none, w, [], []⟩
      = .ok fr := by
    have := h1
    rw [Nat.add_zero] at this
    rw [this, lbDNSClient.attempts]
  simp only [lbDNSClient.Query, hids, hloop, h2, h3, h4, h5r, h5e]
  simp [List.range_eq_range']

theorem lbDNSClient_Query_first_success_witness :
    ((⟨sequentialPolicy.toPolicy ⟨⟩, defaultRequestTimeout, 2,
        [mockDNSClient (some (.foreign "client error")), mockDNSClient none]⟩ :
          lbDNSClient Nat String).Query .Background [97, 98, 99] 0).1
      = .ok ⟨some "expected", none, 2,
          [lbEvent.Query 0 (.WithTimeout .Background 2000000000) [97, 98, 99],
            lbEvent.cancel (.WithTimeout .Background 2000000000),
            lbEvent.Query 1 (.WithTimeout .Background 2000000000) [97, 98, 99],
            lbEvent.cancel (.WithTimeout .Background 2000000000),
            lbEvent.cancel (.WithTimeout .Background 2000000000)]⟩ :=
  lbDNSClient_Query_first_success
    (⟨sequentialPolicy.toPolicy ⟨⟩, defaultRequestTimeout, 2,
      [mockDNSClient (some (.foreign "client error")), mockDNSClient none]⟩ :
        lbDNSClient Nat String)
    .Background [97, 98, 99] 0 [0, 1] 1 (fun j => j)
    (fun j => if j = 0 then (some "expected", some (.foreign "client error"))
      else (some "expected", none))
    (by decide) (by decide) (by decide) (by decide) rfl
    (by
      intro j hj id cl h
      interval_cases j
      · simp [lbDNSClient.lookup] at h
        obtain ⟨_, rfl⟩ := h
        rfl
      · simp [lbDNSClient.lookup] at h
        obtain ⟨_, rfl⟩ := h
        rfl)
    (by intro j hj; interval_cases j; simp)
    rfl

theorem lbDNSClient_Query_exhausted_witness :
    ((⟨sequentialPolicy.toPolicy ⟨⟩, defaultRequestTimeout, 1,
        [mockDNSClient (some (.foreign "error 1")), mockDNSClient (some (.foreign "error 2"))]⟩ :
          lbDNSClient Nat String).Query .Background [97, 98, 99] 0).1
      = .ok ⟨some "expected", some (.foreign "error 1"), 1,
          [lbEvent.Query 0 (.WithTimeout .Background 2000000000) [97, 98, 99],
            lbEvent.cancel (.WithTimeout .Background 2000000000),
            lbEvent.cancel (.WithTimeout .Background 2000000000)]⟩ :=
  lbDNSClient_Query_exhausted
    (⟨sequentialPolicy.toPolicy ⟨⟩, defaultRequestTimeout, 1,
      [mockDNSClient (some (.foreign "error 1")), mockDNSClient (some (.foreign "error 2"))]⟩ :
        lbDNSClient Nat String)
    .Background [97, 98, 99] 0 [0, 1] (fun j => j)
    (fun _ => (some "expected", some (.foreign "error 1")))
    (by decide) (by decide) rfl
    (by
      intro j hj
      have hj0 : j = 0 := by
        have : (j : Int) < 1 := hj
        omega
      subst hj0
      exact ⟨mockDNSClient (some (.foreign "error 1")), rfl, rfl, by simp⟩)

theorem foldl_options_maxFails (specs : List lbOptionSpec) (c : lbDNSClient σ Msg) :
    ((specs.map lbOptionSpec.toOption).foldl (fun c o => o c) c).maxFails
        = (lastMaxFails specs).getD c.maxFails ∧
      ((specs.map lbOptionSpec.toOption).foldl (fun c o => o c) c).clients = c.clients := by
  induction specs using List.reverseRecOn with
  | nil => simp [lastMaxFails]
  | append_singleton l a ih =>
    rw [List.map_append, List.foldl_append]
    cases a with
    | policy p => simpa [lastMaxFails, lbOptionSpec.toOption, withLbPolicy] using ih
    | requestTimeout t =>
      simpa [lastMaxFails, lbOptionSpec.toOption, withLbRequestTimeout] using ih
    | maxFails m =>
      refine ⟨?_, ?_⟩
      · simp [lastMaxFails, lbOptionSpec.toOption, withLbMaxFails, List.filterMap_append]
      · simpa [lbOptionSpec.toOption, withLbMaxFails] using ih.2

/-- `newLoadBalanceDNSClient` with its local `c` written out. -/
theorem newLoadBalanceDNSClient_eq (rng : randSource) (clients : List (dnsClient σ Msg))
    (opts : List (lbDNSClientOption σ Msg)) :
    newLoadBalanceDNSClient rng clients opts
      = if (clients.length : Int) < (opts.foldl (fun c o => o c)
            (⟨newRandomPolicy rng, defaultRequestTimeout, clients.length, clients⟩ :
              lbDNSClient σ Msg)).maxFails
        then ⟨(opts.foldl (fun c o => o c)
            (⟨newRandomPolicy rng, defaultRequestTimeout, clients.length, clients⟩ :
              lbDNSClient σ Msg)).p,
          (opts.foldl (fun c o => o c)
            (⟨newRandomPolicy rng, defaultRequestTimeout, clients.length, clients⟩ :
              lbDNSClient σ Msg)).timeout, clients.length,
          (opts.foldl (fun c o => o c)
            (⟨newRandomPolicy rng, defaultRequestTimeout, clients.length, clients⟩ :
              lbDNSClient σ Msg)).clients⟩
        else opts.foldl (fun c o => o c)
            (⟨newRandomPolicy rng, defaultRequestTimeout, clients.length, clients⟩ :
              lbDNSClient σ Msg) :=
  rfl

/-- The final comparison of `newLoadBalanceDNSClient` bounds `maxFails` by the
length of the pool that was passed, whatever the options did. -/
theorem maxFails_le_pool (rng : randSource) (clients : List (dnsClient σ Msg))
    (opts : List (lbDNSClientOption σ Msg)) :
    (newLoadBalanceDNSClient rng clients opts).maxFails ≤ clients.length := by
  rw [newLoadBalanceDNSClient_eq]
  split_ifs with hlt
  · exact le_refl _
  · exact not_lt.mp hlt

/-- C3. For every pool and every list of options the constructed client has
`maxFails ≤ N`, `N` the pool size; when the options are built by the three
option constructors, `maxFails = min(m, N)` with `m` the value of the last
`withLbMaxFails` option, or `N` when there is none; with no options the timeout
is 2 seconds (and `maxFails = N`). -/
theorem newLoadBalanceDNSClient_maxFails (rng : randSource) (clients : List (dnsClient σ Msg)) :
    (∀ opts : List (lbDNSClientOption σ Msg),
      (newLoadBalanceDNSClient rng clients opts).maxFails ≤ clients.length) ∧
    (∀ specs : List lbOptionSpec,
      (newLoadBalanceDNSClient rng clients (specs.map lbOptionSpec.toOption)).maxFails
        = min ((lastMaxFails specs).getD clients.length) clients.length) ∧
    (newLoadBalanceDNSClient rng clients []).maxFails = clients.length ∧
    (newLoadBalanceDNSClient rng clients []).timeout = 2 * 1000000000 := by
  refine ⟨maxFails_le_pool rng clients, ?_, ?_, ?_⟩
  · intro specs
    have h := (@foldl_options_maxFails σ Msg specs
      ⟨newRandomPolicy rng, defaultRequestTimeout, clients.length, clients⟩).1
    rw [newLoadBalanceDNSClient_eq]
    split_ifs with hlt
    · rw [h] at hlt
      exact (min_eq_right hlt.le).symm
    · rw [h] at hlt ⊢
      exact (min_eq_left (not_lt.mp hlt)).symm
  · simp [newLoadBalanceDNSClient]
  · simp [newLoadBalanceDNSClient, defaultRequestTimeout, time.Second]

/-- C4. For a client built by `newLoadBalanceDNSClient` from an empty pool, or
whose `maxFails` is zero, a call of `Query` in which the policy returns an
ordering invokes no transport (no event occurs, the world is unchanged) and
returns a nil message with a nil error. -/
theorem lbDNSClient_Query_no_attempt (rng : randSource) (clients : List (dnsClient σ Msg))
    (opts : List (lbDNSClientOption σ Msg)) (ctx : Context) (dnsreq : Bytes) (w : σ)
    (ids : IntSlice)
    (hzero : clients = [] ∨ (newLoadBalanceDNSClient rng clients opts).maxFails = 0)
    (hids : ((newLoadBalanceDNSClient rng clients opts).p.List
      (newLoadBalanceDNSClient rng clients opts).clients.length).1 = .ok ids) :
    ((newLoadBalanceDNSClient rng clients opts).Query ctx dnsreq w).1
      = .ok ⟨none, none, w, []⟩ := by
  have hle := maxFails_le_pool rng clients opts
  have hm : (newLoadBalanceDNSClient rng clients opts).maxFails.toNat = 0 := by
    rcases hzero with h | h
    · subst h
      simp only [List.length_nil] at hle
      omega
    · rw [h]; rfl
  simp only [lbDNSClient.Query, hids, hm, lbDNSClient.attempts]
  simp

theorem lbDNSClient_Query_no_attempt_witness :
    ((newLoadBalanceDNSClient ⟨fun k => k⟩
        [mockDNSClient none, mockDNSClient none] [withLbMaxFails 0]).Query
          .Background [97, 98, 99] 0).1 = .ok ⟨none, none, 0, []⟩ ∧
    ((newLoadBalanceDNSClient ⟨fun k => k⟩
        ([] : List (dnsClient Nat String)) []).Query
          .Background [97, 98, 99] 0).1 = .ok ⟨none, none, 0, []⟩ :=
  ⟨lbDNSClient_Query_no_attempt ⟨fun k => k⟩ [mockDNSClient none, mockDNSClient none]
      [withLbMaxFails 0] .Background [97, 98, 99] 0 [0, 1] (Or.inr rfl) (by decide),
    lbDNSClient_Query_no_attempt ⟨fun k => k⟩ ([] : List (dnsClient Nat String))
      [] .Background [97, 98, 99] 0 [] (Or.inl rfl) (by decide)⟩

end lb


/-- C10. In an exchange where the HTTP client returns a 2xx response and the
read of its body reports no I/O error, `Query` returns a nil message with
`errResponseTooLarge` exactly when the body holds more than 1472 bytes, whatever
the decoder would make of the body or of a part of it (the decoder is then not
called); a body of at most 1472 bytes is handed whole to the decoder, whose
message and error are returned. -/
theorem dohDNSClient_Query_size_cap {σ Msg : Type} (urlErr : String → Option error)
    (Unpack : Bytes → Msg × Option String) (c : dohDNSClient σ) (ctx : Context)
    (dnsreq : Bytes) (w w' : σ) (resp : httpResponse)
    (hurl : urlErr c.url = none)
    (hdo : c.client.Do ⟨ctx, "POST", c.url,
        (Header.set (Header.set [] "Accept" dnsMessageMimeTypeHeader) "Content-Type"
          dnsMessageMimeTypeHeader), dnsreq⟩ w = ((some resp, none), w'))
    (hstatus : 200 ≤ resp.StatusCode ∧ resp.StatusCode < 300)
    (hread : (io.ReadAll (io.LimitReader resp.Body (maxDNSMessageSize + 1))).2 = none) :
    ∃ res : dohResult σ Msg, c.Query urlErr Unpack ctx dnsreq w = .ok res ∧
      (res.err = some .errResponseTooLarge ↔ 1472 < resp.Body.data.length) ∧
      (1472 < resp.Body.data.length →
        res.r = none ∧ ∀ b, dohEvent.Unpack b ∉ res.trace) ∧
      (resp.Body.data.length ≤ 1472 →
        res.r = some (Unpack resp.Body.data).1 ∧
        res.err = (Unpack resp.Body.data).2.map error.foreign ∧
        dohEvent.Unpack resp.Body.data ∈ res.trace) := by
  have hst : ¬ (resp.StatusCode < 200 ∨ resp.StatusCode ≥ 300) := by omega
  rcases Nat.lt_or_ge 1472 resp.Body.data.length with hbig | hsmall
  · have hlim : io.LimitReader resp.Body (maxDNSMessageSize + 1)
        = ⟨resp.Body.data.take 1473, none⟩ := by
      simp only [io.LimitReader, maxDNSMessageSize]
      rw [if_pos (by omega)]
    have hlen : (resp.Body.data.take 1473).length > maxDNSMessageSize := by
      simp only [List.length_take, maxDNSMessageSize]
      omega
    refine ⟨⟨none, some .errResponseTooLarge, w',
      [dohEvent.Do ⟨ctx, "POST", c.url,
        (Header.set (Header.set [] "Accept" dnsMessageMimeTypeHeader) "Content-Type"
          dnsMessageMimeTypeHeader), dnsreq⟩, dohEvent.ReadAll (maxDNSMessageSize + 1)] ++ [.Close]⟩, ?_, ?_, ?_, ?_⟩
    · simp only [dohDNSClient.Query, http.NewRequestWithContext, hurl, hdo, hst, if_false,
        hlim, io.ReadAll, hlen, if_true]
    · simp [hbig]
    · intro _
      simp
    · intro h
      omega
  · have hlim : io.LimitReader resp.Body (maxDNSMessageSize + 1) = resp.Body := by
      simp only [io.LimitReader, maxDNSMessageSize]
      rw [if_neg (by omega)]
    have herr : resp.Body.err = none := by
      rw [hlim] at hread
      exact hread
    have hlen : ¬ resp.Body.data.length > maxDNSMessageSize := by
      simp only [maxDNSMessageSize]
      omega
    refine ⟨⟨some (Unpack resp.Body.data).1, (Unpack resp.Body.data).2.map error.foreign, w',
      [dohEvent.Do ⟨ctx, "POST", c.url,
        (Header.set (Header.set [] "Accept" dnsMessageMimeTypeHeader) "Content-Type"
          dnsMessageMimeTypeHeader), dnsreq⟩, dohEvent.ReadAll (maxDNSMessageSize + 1)]
        ++ [.Unpack resp.Body.data, .Close]⟩, ?_, ?_, ?_, ?_⟩
    · simp only [dohDNSClient.Query, http.NewRequestWithContext, hurl, hdo, hst, if_false,
        hlim, io.ReadAll, herr, hlen]
    · constructor
      · intro h
        cases hu : (Unpack resp.Body.data).2 <;> simp [hu] at h
      · intro h
        omega
    · intro h
      omega
    · intro _
      simp

theorem dohDNSClient_Query_size_cap_witness :
    ∃ res : dohResult Unit String,
      (newDoHDNSClient (mockHTTPClientFunc largeResponse) "https://example.com/dns-query").Query
          (fun _ => none) (fun _ => ("decoded", none)) .Background [97, 98, 99] () = .ok res ∧
        (res.err = some .errResponseTooLarge ↔ 1472 < largeResponse.Body.data.length) ∧
        (1472 < largeResponse.Body.data.length →
          res.r = none ∧ ∀ b, dohEvent.Unpack b ∉ res.trace) ∧
        (largeResponse.Body.data.length ≤ 1472 →
          res.r = some "decoded" ∧
          res.err = (none : Option String).map error.foreign ∧
          dohEvent.Unpack largeResponse.Body.data ∈ res.trace) :=
  dohDNSClient_Query_size_cap (fun _ => none) (fun _ => ("decoded", none))
    (newDoHDNSClient (mockHTTPClientFunc largeResponse) "https://example.com/dns-query")
    .Background [97, 98, 99] () () largeResponse rfl rfl (by decide)
    (by
      have h : maxDNSMessageSize + 1 ≤ largeResponse.Body.data.length := by
        show 1473 ≤ (List.replicate 28 (0 : Fin 256) ++ List.replicate 1472 97).length
        rw [List.length_append, List.length_replicate, List.length_replicate]
        decide
      simp only [io.ReadAll, io.LimitReader, if_pos h])

/-- C9. For `n ≤ 0` each of the three policies returns the empty (nil)
ordering, whatever the state of the random source or of the round-robin
cursor. -/
theorem List_nonpositive_empty (n : Int) (hn : n ≤ 0) (r : randSource)
    (p : roundRobinPolicy) (s : sequentialPolicy) :
    (randomPolicy.List r n).1 = [] ∧ (p.List n).1 = .ok [] ∧ s.List n = [] := by
  simp [randomPolicy.List, roundRobinPolicy.List, sequentialPolicy.List, hn]

theorem List_nonpositive_empty_witness :
    (-1 : Int) ≤ 0 ∧
      ((randomPolicy.List ⟨fun k => k⟩ (-1)).1 = [] ∧
        ((⟨7⟩ : roundRobinPolicy).List (-1)).1 = .ok [] ∧
        (⟨⟩ : sequentialPolicy).List (-1) = []) :=
  ⟨by decide, List_nonpositive_empty (-1) (by decide) ⟨fun k => k⟩ ⟨7⟩ ⟨⟩⟩

/-- C8. `sequentialPolicy.List(n)` is exactly `[0, 1, ..., n-1]` for every
`n ≥ 1`, whichever `sequentialPolicy` value it is called on (the type has no
state), so two calls with the same `n` agree. -/
theorem sequentialPolicy_List_identity (p q : sequentialPolicy) (n : Int) (hn : 1 ≤ n) :
    p.List n = (List.range n.toNat).map (fun j : Nat => (j : Int)) ∧ p.List n = q.List n := by
  have h : ¬ n ≤ 0 := by omega
  have key : ∀ s : sequentialPolicy,
      s.List n = (List.range n.toNat).map (fun j : Nat => (j : Int)) := by
    intro s
    have := fillLoop_eq n.toNat 0 [] (List.replicate n.toNat 0) rfl (by simp)
    simp only [List.nil_append] at this
    simp [sequentialPolicy.List, h, this, List.range_eq_range']
  exact ⟨key p, (key p).trans (key q).symm⟩

theorem sequentialPolicy_List_identity_witness :
    (1 : Int) ≤ 3 ∧
      ((⟨⟩ : sequentialPolicy).List 3 = (List.range (3 : Int).toNat).map (fun j : Nat => (j : Int)) ∧
        (⟨⟩ : sequentialPolicy).List 3 = (⟨⟩ : sequentialPolicy).List 3) :=
  ⟨by decide, sequentialPolicy_List_identity ⟨⟩ ⟨⟩ 3 (by decide)⟩

/-- C11. When the HTTP client returns a response without error and its status
code is outside `[200, 300)`, `Query` returns a nil message and
`errResponseStatus`, and the events of the call are the `Do` call and `Close`
only: the body is neither read nor decoded, whatever it holds. When the status
code is inside `[200, 300)` and the read of the body does not itself report
`errResponseStatus`, `Query` returns and its error is not
`errResponseStatus`. -/
theorem dohDNSClient_Query_status {σ Msg : Type} (urlErr : String → Option error)
    (Unpack : Bytes → Msg × Option String) (c : dohDNSClient σ) (ctx : Context)
    (dnsreq : Bytes) (w w' : σ) (resp : httpResponse)
    (hurl : urlErr c.url = none)
    (hdo : c.client.Do ⟨ctx, "POST", c.url,
        (Header.set (Header.set [] "Accept" dnsMessageMimeTypeHeader) "Content-Type"
          dnsMessageMimeTypeHeader), dnsreq⟩ w = ((some resp, none), w')) :
    (resp.StatusCode < 200 ∨ 300 ≤ resp.StatusCode →
      c.Query urlErr Unpack ctx dnsreq w = .ok ⟨none, some .errResponseStatus, w',
        [dohEvent.Do ⟨ctx, "POST", c.url,
          (Header.set (Header.set [] "Accept" dnsMessageMimeTypeHeader) "Content-Type"
            dnsMessageMimeTypeHeader), dnsreq⟩, dohEvent.Close]⟩) ∧
    (200 ≤ resp.StatusCode → resp.StatusCode < 300 →
      (io.ReadAll (io.LimitReader resp.Body (maxDNSMessageSize + 1))).2
        ≠ some .errResponseStatus →
      ∃ res : dohResult σ Msg, c.Query urlErr Unpack ctx dnsreq w = .ok res ∧
        res.err ≠ some .errResponseStatus) := by
  constructor
  · intro hst
    have hst' : resp.StatusCode < 200 ∨ resp.StatusCode ≥ 300 := by omega
    simp only [dohDNSClient.Query, http.NewRequestWithContext, hurl, hdo, hst', if_true]
  · intro h1 h2 hread
    have hst : ¬ (resp.StatusCode < 200 ∨ resp.StatusCode ≥ 300) := by omega
    simp only [dohDNSClient.Query, http.NewRequestWithContext, hurl, hdo, hst, if_false]
    cases hr : (io.ReadAll (io.LimitReader resp.Body (maxDNSMessageSize + 1))).2 with
    | some e =>
      refine ⟨_, rfl, ?_⟩
      rw [hr] at hread
      exact hread
    | none =>
      by_cases hlen : (io.ReadAll (io.LimitReader resp.Body (maxDNSMessageSize + 1))).1.length
          > maxDNSMessageSize
      · simp only [hlen, if_true]
        exact ⟨_, rfl, by simp⟩
      · simp only [hlen, if_false]
        refine ⟨_, rfl, ?_⟩
        cases hu : (Unpack (io.ReadAll (io.LimitReader resp.Body
          (maxDNSMessageSize + 1))).1).2 <;> simp

theorem dohDNSClient_Query_status_witness :
    (newDoHDNSClient (mockHTTPClientFunc statusErrorResponse)
        "https://example.com/dns-query").Query (fun _ => none)
        (fun _ => ("decoded", (none : Option String))) .Background [97, 98, 99] ()
      = .ok ⟨none, some .errResponseStatus, (),
        [dohEvent.Do ⟨.Background, "POST", "https://example.com/dns-query",
          (Header.set (Header.set [] "Accept" dnsMessageMimeTypeHeader) "Content-Type"
            dnsMessageMimeTypeHeader), [97, 98, 99]⟩, dohEvent.Close]⟩ :=
  (dohDNSClient_Query_status (fun _ => none) (fun _ => ("decoded", (none : Option String)))
    (newDoHDNSClient (mockHTTPClientFunc statusErrorResponse) "https://example.com/dns-query")
    .Background [97, 98, 99] () () statusErrorResponse rfl rfl).1 (Or.inr (by decide))

/-- The events of `dohDNSClient.Query` hold at most one `Do` call, in every
case; with a URL that parses they hold exactly one, for the request shown. -/
theorem dohDNSClient_Query_doRequests {σ Msg : Type} (urlErr : String → Option error)
    (Unpack : Bytes → Msg × Option String) (c : dohDNSClient σ) (ctx : Context)
    (dnsreq : Bytes) (w : σ) :
    (∀ e, urlErr c.url = some e →
      doRequests (dohEvents (c.Query urlErr Unpack ctx dnsreq w)) = []) ∧
    (urlErr c.url = none →
      doRequests (dohEvents (c.Query urlErr Unpack ctx dnsreq w))
        = [⟨ctx, "POST", c.url,
          (Header.set (Header.set [] "Accept" dnsMessageMimeTypeHeader) "Content-Type"
            dnsMessageMimeTypeHeader), dnsreq⟩]) := by
  constructor
  · intro e he
    simp [dohDNSClient.Query, http.NewRequestWithContext, he, dohEvents, doRequests]
  · intro hurl
    simp only [dohDNSClient.Query, http.NewRequestWithContext, hurl]
    split
    · simp [dohEvents, doRequests]
    · split
      · simp [dohEvents, doRequests]
      · split
        · simp [dohEvents, doRequests]
        · split
          · simp [dohEvents, doRequests]
          · split <;> simp [dohEvents, doRequests]

/-- C12. When the request cannot be built (`url.Parse` reports an error for the
endpoint URL), `Query` returns that error with a nil message and no event
occurs, so `Do` is not called; and in every case, a panic included, the events
of a call hold at most one `Do` call. -/
theorem dohDNSClient_Query_single_Do {σ Msg : Type} (urlErr : String → Option error)
    (Unpack : Bytes → Msg × Option String) (c : dohDNSClient σ) (ctx : Context)
    (dnsreq : Bytes) (w : σ) :
    (∀ e, urlErr c.url = some e →
      c.Query urlErr Unpack ctx dnsreq w = .ok ⟨none, some e, w, []⟩) ∧
    (doRequests (dohEvents (c.Query urlErr Unpack ctx dnsreq w))).length ≤ 1 := by
  constructor
  · intro e he
    simp only [dohDNSClient.Query, http.NewRequestWithContext, he]
  · have h := dohDNSClient_Query_doRequests urlErr Unpack c ctx dnsreq w
    cases hu : urlErr c.url with
    | none => rw [h.2 hu]; simp
    | some e => rw [h.1 e hu]; simp

theorem dohDNSClient_Query_single_Do_witness :
    (newDoHDNSClient (mockHTTPClientFunc statusErrorResponse)
        "https://example.com/\t\n").Query urlControlCheck
        (fun _ => ("decoded", (none : Option String))) .Background [97, 98, 99] ()
      = .ok ⟨none, some (.foreign "net/url: invalid control character in URL"), (), []⟩ :=
  (dohDNSClient_Query_single_Do urlControlCheck (fun _ => ("decoded", (none : Option String)))
    (newDoHDNSClient (mockHTTPClientFunc statusErrorResponse) "https://example.com/\t\n")
    .Background [97, 98, 99] ()).1 _ (by decide)

/-- The header of the request after the two assignments of `Query`. -/
theorem header_Accept :
    ((Header.set ([] : Header) "Accept" dnsMessageMimeTypeHeader).set "Content-Type"
      dnsMessageMimeTypeHeader).get "Accept" = some ["application/dns-message"] := by
  decide

theorem header_ContentType :
    ((Header.set ([] : Header) "Accept" dnsMessageMimeTypeHeader).set "Content-Type"
      dnsMessageMimeTypeHeader).get "Content-Type" = some ["application/dns-message"] := by
  decide

/-- C13. For an endpoint URL that parses and any request bytes `b`, the events
of a call hold exactly one `Do` call, and its request has method POST, the
endpoint URL, the caller's context, header `Accept` and header `Content-Type`
both equal to `["application/dns-message"]`, and body `b`. -/
theorem dohDNSClient_Query_request {σ Msg : Type} (urlErr : String → Option error)
    (Unpack : Bytes → Msg × Option String) (c : dohDNSClient σ) (ctx : Context)
    (b : Bytes) (w : σ) (hurl : urlErr c.url = none) :
    ∃ req : httpRequest,
      doRequests (dohEvents (c.Query urlErr Unpack ctx b w)) = [req] ∧
      req.Method = "POST" ∧ req.URL = c.url ∧ req.ctx = ctx ∧
      req.Header.get "Accept" = some ["application/dns-message"] ∧
      req.Header.get "Content-Type" = some ["application/dns-message"] ∧
      req.Body = b :=
  ⟨_, (dohDNSClient_Query_doRequests urlErr Unpack c ctx b w).2 hurl, rfl, rfl, rfl,
    header_Accept, header_ContentType, rfl⟩

theorem dohDNSClient_Query_request_witness :
    ∃ req : httpRequest,
      doRequests (dohEvents ((newDoHDNSClient (mockHTTPClientFunc statusErrorResponse)
        "https://example.com/dns-query").Query urlControlCheck
        (fun _ => ("decoded", (none : Option String))) .Background [97, 98, 99] ())) = [req] ∧
      req.Method = "POST" ∧ req.URL = "https://example.com/dns-query" ∧
      req.ctx = .Background ∧
      req.Header.get "Accept" = some ["application/dns-message"] ∧
      req.Header.get "Content-Type" = some ["application/dns-message"] ∧
      req.Body = [97, 98, 99] :=
  dohDNSClient_Query_request urlControlCheck (fun _ => ("decoded", (none : Option String)))
    (newDoHDNSClient (mockHTTPClientFunc statusErrorResponse) "https://example.com/dns-query")
    .Background [97, 98, 99] () (by decide)

/-- C16, counterexample. The HTTP client of `TestDNSClientHttpClientError` hands
back a response together with an error; `Query` returns that error and the only
event of the call is the `Do` call: `Close` is not called. -/
theorem dohDNSClient_Query_Do_error_no_Close :
    (mockHTTPClientError.Do ⟨.Background, "POST", "https://example.com/dns-query",
        (Header.set (Header.set [] "Accept" dnsMessageMimeTypeHeader) "Content-Type"
          dnsMessageMimeTypeHeader), [97, 98, 99]⟩ ()).1.1
      = some ⟨200, ⟨[100, 101, 102], none⟩⟩ ∧
    (newDoHDNSClient mockHTTPClientError "https://example.com/dns-query").Query
        (fun _ => none) (fun _ => ("decoded", (none : Option String))) .Background
        [97, 98, 99] ()
      = .ok ⟨none, some (.foreign "http error"), (),
        [dohEvent.Do ⟨.Background, "POST", "https://example.com/dns-query",
          (Header.set (Header.set [] "Accept" dnsMessageMimeTypeHeader) "Content-Type"
            dnsMessageMimeTypeHeader), [97, 98, 99]⟩]⟩ ∧
    dohEvent.Close ∉ dohEvents
      ((newDoHDNSClient mockHTTPClientError "https://example.com/dns-query").Query
        (fun _ => none) (fun _ => ("decoded", (none : Option String))) .Background
        [97, 98, 99] ()) := by
  decide

/-- C16, amended. Whenever `Do` hands back a response with a nil error, `Query`
returns (on success, on a non-2xx status, a read error, an oversized body or a
decode error alike) and `Close` is called exactly once, as the last event of the
call. When `Do` returns an error, `Query` returns that error after the `Do` call
without calling `Close`, whether or not a response came with the error. -/
theorem dohDNSClient_Query_Close {σ Msg : Type} (urlErr : String → Option error)
    (Unpack : Bytes → Msg × Option String) (c : dohDNSClient σ) (ctx : Context)
    (dnsreq : Bytes) (w : σ) (hurl : urlErr c.url = none) :
    (∀ resp w', c.client.Do ⟨ctx, "POST", c.url,
        (Header.set (Header.set [] "Accept" dnsMessageMimeTypeHeader) "Content-Type"
          dnsMessageMimeTypeHeader), dnsreq⟩ w = ((some resp, none), w') →
      ∃ res : dohResult σ Msg, c.Query urlErr Unpack ctx dnsreq w = .ok res ∧
        res.trace.getLast? = some .Close ∧ res.trace.count .Close = 1) ∧
    (∀ r e w', c.client.Do ⟨ctx, "POST", c.url,
        (Header.set (Header.set [] "Accept" dnsMessageMimeTypeHeader) "Content-Type"
          dnsMessageMimeTypeHeader), dnsreq⟩ w = ((r, some e), w') →
      c.Query urlErr Unpack ctx dnsreq w = .ok ⟨none, some e, w',
        [dohEvent.Do ⟨ctx, "POST", c.url,
          (Header.set (Header.set [] "Accept" dnsMessageMimeTypeHeader) "Content-Type"
            dnsMessageMimeTypeHeader), dnsreq⟩]⟩) := by
  constructor
  · intro resp w' hdo
    simp only [dohDNSClient.Query, http.NewRequestWithContext, hurl, hdo]
    split
    · exact ⟨_, rfl, by simp, by simp [List.count_cons]⟩
    · split
      · exact ⟨_, rfl, by simp, by simp [List.count_cons]⟩
      · split
        · exact ⟨_, rfl, by simp, by simp [List.count_cons]⟩
        · exact ⟨_, rfl, by simp, by simp [List.count_cons]⟩
  · intro r e w' hdo
    simp only [dohDNSClient.Query, http.NewRequestWithContext, hurl, hdo]

theorem dohDNSClient_Query_Close_witness :
    ∃ res : dohResult Unit String,
      (newDoHDNSClient (mockHTTPClientFunc largeResponse)
        "https://example.com/dns-query").Query (fun _ => none)
        (fun _ => ("decoded", (none : Option String))) .Background [97, 98, 99] () = .ok res ∧
      res.trace.getLast? = some .Close ∧ res.trace.count .Close = 1 :=
  (dohDNSClient_Query_Close (fun _ => none) (fun _ => ("decoded", (none : Option String)))
    (newDoHDNSClient (mockHTTPClientFunc largeResponse) "https://example.com/dns-query")
    .Background [97, 98, 99] () rfl).1 largeResponse () rfl

/-- C14. `metricDNSClient.Query` calls the wrapped transport once, with the
caller's context and request bytes, and, when a nil error comes with a message,
returns the pair the wrapped transport returned. When the error is non-nil the
world after the call is the one the wrapped transport left: no counter and no
histogram is changed. When it is nil, `RequestCount` for the endpoint and
`RcodeCount` for (label, endpoint) are one higher than the wrapped transport left
them, `RequestDuration` for the endpoint has one more observation, and every
other label value is unchanged; the label is the name of the response code in
`dns.RcodeToString`, or its decimal number when the table has no entry. -/
theorem metricDNSClient_Query_transparent {σ Msg : Type} (RcodeToString : Int → Option String)
    (Rcode : Msg → Int) (c : metricDNSClient σ Msg) (ctx : Context) (dnsreq : Bytes)
    (w w' : metricWorld σ) (r : Option Msg) (err : Option error)
    (hq : c.client.Query ctx dnsreq w = ((r, err), w'))
    (hmsg : err = none → r ≠ none) :
    ∃ res : metricResult σ Msg,
      c.Query RcodeToString Rcode ctx dnsreq w = .ok res ∧
      res.r = r ∧ res.err = err ∧ res.calls = [(ctx, dnsreq)] ∧
      res.world.net = w'.net ∧ res.world.now = w'.now ∧
      (err ≠ none → res.world = w') ∧
      (∀ m, err = none → r = some m →
        (∀ label, res.world.metrics.RequestCount label
          = w'.metrics.RequestCount label + (if label = c.addr then 1 else 0)) ∧
        (∀ code label, res.world.metrics.RcodeCount code label
          = w'.metrics.RcodeCount code label
            + (if code = (RcodeToString (Rcode m)).getD (toString (Rcode m)) ∧ label = c.addr
                then 1 else 0)) ∧
        (∀ label, res.world.metrics.RequestDuration label
          = w'.metrics.RequestDuration label
            ++ (if label = c.addr then [w'.now - w.now] else []))) := by
  cases err with
  | some e =>
    refine ⟨⟨r, some e, w', [(ctx, dnsreq)]⟩, ?_, rfl, rfl, rfl, rfl, rfl, fun _ => rfl, ?_⟩
    · simp only [metricDNSClient.Query, hq]
    · intro m h
      exact absurd h (by simp)
  | none =>
    obtain ⟨m, rfl⟩ := Option.ne_none_iff_exists'.mp (hmsg rfl)
    have hQ : c.Query RcodeToString Rcode ctx dnsreq w
        = .ok ⟨some m, none, ⟨w'.net, w'.now,
            ((w'.metrics.addRequest c.addr).addRcode
              (match RcodeToString (Rcode m) with
                | some name => name
                | none => toString (Rcode m)) c.addr).observe c.addr (w'.now - w.now)⟩,
            [(ctx, dnsreq)]⟩ := by
      simp only [metricDNSClient.Query, hq]
    refine ⟨_, hQ, rfl, rfl, rfl, rfl, rfl, fun h => absurd rfl h, ?_⟩
    · intro m' _ hm
      have hm' : m = m' := Option.some.inj hm
      subst hm'
      refine ⟨?_, ?_, ?_⟩
      · intro label
        simp only [Metrics.observe, Metrics.addRcode, Metrics.addRequest]
        split <;> simp
      · intro code label
        have hrc : (match RcodeToString (Rcode m) with
            | some name => name
            | none => toString (Rcode m))
            = (RcodeToString (Rcode m)).getD (toString (Rcode m)) := by
          cases RcodeToString (Rcode m) <;> rfl
        simp only [Metrics.observe, Metrics.addRcode, Metrics.addRequest, hrc]
        split <;> simp
      · intro label
        simp only [Metrics.observe, Metrics.addRcode, Metrics.addRequest]
        split <;> simp

theorem metricDNSClient_Query_transparent_witness :
    ∃ res : metricResult Unit Int,
      (newMetricDNSClient (timedDNSClient (some 3) none) "example.com").Query rcodeNames
        (fun m => m) .Background [97, 98, 99] zeroWorld = .ok res ∧
      res.r = some 3 ∧ res.err = none ∧ res.calls = [(.Background, [97, 98, 99])] ∧
      res.world.net = () ∧ res.world.now = 5000000 ∧
      ((none : Option error) ≠ none → res.world = ⟨(), 5000000, zeroWorld.metrics⟩) ∧
      (∀ m : Int, (none : Option error) = none → some (3 : Int) = some m →
        (∀ label, res.world.metrics.RequestCount label
          = 0 + (if label = "example.com" then 1 else 0)) ∧
        (∀ code label, res.world.metrics.RcodeCount code label
          = 0 + (if code = (rcodeNames m).getD (toString m) ∧ label = "example.com"
                then 1 else 0)) ∧
        (∀ label, res.world.metrics.RequestDuration label
          = [] ++ (if label = "example.com" then [5000000 - 0] else []))) :=
  metricDNSClient_Query_transparent rcodeNames (fun m => m)
    (newMetricDNSClient (timedDNSClient (some 3) none) "example.com") .Background
    [97, 98, 99] zeroWorld ⟨(), 5000000, zeroWorld.metrics⟩ (some 3) none rfl (by simp)

section lbBounds

variable {σ Msg : Type}

/-- The ordering the round-robin policy returns for any pool length, together
with its size and range. -/
theorem roundRobinPolicy_List_valid (q : roundRobinPolicy) (n : Nat) (ids : IntSlice)
    (h : (q.List n).1 = .ok ids) :
    ids.length = n ∧ ∀ id ∈ ids, 0 ≤ id ∧ id < (n : Int) := by
  unfold roundRobinPolicy.List at h
  by_cases h0 : (n : Int) ≤ 0
  · have hn : n = 0 := by omega
    subst hn
    simp at h
    subst h
    simp
  · rw [if_neg h0] at h
    simp only [Int.toNat_ofNat] at h
    by_cases hm : n % 2 ^ 32 = 0
    · rw [if_pos hm] at h
      simp at h
    · rw [if_neg hm] at h
      have hi : (q.robin + 1) % 2 ^ 32 % (n % 2 ^ 32) < n := by
        have h1 : (q.robin + 1) % 2 ^ 32 % (n % 2 ^ 32) < n % 2 ^ 32 :=
          Nat.mod_lt _ (Nat.pos_of_ne_zero hm)
        have h2 : n % 2 ^ 32 ≤ n := Nat.mod_le _ _
        omega
      simp only [appendLoop_wrap, Except.ok.injEq] at h
      subst h
      generalize (q.robin + 1) % 2 ^ 32 % (n % 2 ^ 32) = i at hi
      constructor
      · simp only [List.length_map, List.length_append, List.length_range', List.length_range]
        omega
      · intro id hid
        simp only [List.mem_map, List.mem_append, List.mem_range', List.mem_range] at hid
        obtain ⟨k, hk, rfl⟩ := hid
        rcases hk with ⟨j, hj, rfl⟩ | hk
        · omega
        · omega

/-- Each built-in policy, called with the length of a pool, returns as many
indices as the pool has transports, all of them inside the pool; the only panic
is the division of the round-robin policy. -/
theorem builtin_List_valid (p : policy) (hp : p.builtin) (n : Nat) :
    (∀ ids, (p.List n).1 = .ok ids → ids.length = n ∧ ∀ id ∈ ids, 0 ≤ id ∧ id < (n : Int)) ∧
    (∀ e, (p.List n).1 = .error e → e = "integer divide by zero") := by
  rcases hp with ⟨r, rfl⟩ | ⟨q, rfl⟩ | ⟨s, rfl⟩
  · constructor
    · intro ids h
      simp only [policy.List, newRandomPolicy, Except.ok.injEq] at h
      subst h
      by_cases h0 : (n : Int) ≤ 0
      · have hn : n = 0 := by omega
        subst hn
        simp [randomPolicy.List]
      · have hperm : List.Perm (randomPolicy.List r n).1
            ((List.range n).map (fun x : Nat => (x : Int))) := by
          simp only [randomPolicy.List, h0, if_false, Int.toNat_ofNat]
          exact rand_Perm_perm r n
        refine ⟨by rw [hperm.length_eq]; simp, ?_⟩
        intro id hid
        have := hperm.mem_iff.mp hid
        simp only [List.mem_map, List.mem_range] at this
        obtain ⟨k, hk, rfl⟩ := this
        omega
    · intro e h
      simp [policy.List, newRandomPolicy] at h
  · constructor
    · intro ids h
      exact roundRobinPolicy_List_valid q n ids h
    · intro e h
      simp only [policy.List, roundRobinPolicy.toPolicy] at h
      unfold roundRobinPolicy.List at h
      by_cases h0 : (n : Int) ≤ 0
      · rw [if_pos h0] at h
        simp at h
      · rw [if_neg h0] at h
        by_cases hm : (n : Int).toNat % 2 ^ 32 = 0
        · simp only [hm, if_true, Except.error.injEq] at h
          exact h.symm
        · simp only [hm, if_false] at h
          simp at h
  · constructor
    · intro ids h
      simp only [policy.List, sequentialPolicy.toPolicy, Except.ok.injEq] at h
      subst h
      by_cases h0 : (n : Int) ≤ 0
      · have hn : n = 0 := by omega
        subst hn
        simp [sequentialPolicy.List]
      · have hseq : s.List n = (List.range n).map (fun j : Nat => (j : Int)) := by
          have := fillLoop_eq n 0 [] (List.replicate n 0) rfl (by simp)
          simp only [List.nil_append] at this
          simp [sequentialPolicy.List, h0, this, List.range_eq_range']
        rw [hseq]
        refine ⟨by simp, ?_⟩
        intro id hid
        simp only [List.mem_map, List.mem_range] at hid
        obtain ⟨k, hk, rfl⟩ := hid
        omega
    · intro e h
      simp [policy.List, sequentialPolicy.toPolicy] at h

/-- The options built by the three constructors leave a built-in policy in
place when every policy they name is built in. -/
theorem foldl_options_builtin (specs : List lbOptionSpec) (c : lbDNSClient σ Msg)
    (hc : c.p.builtin) (hb : ∀ p, lbOptionSpec.policy p ∈ specs → p.builtin) :
    ((specs.map lbOptionSpec.toOption).foldl (fun c o => o c) c).p.builtin := by
  induction specs using List.reverseRecOn with
  | nil => simpa using hc
  | append_singleton l a ih =>
    rw [List.map_append, List.foldl_append]
    have ih' := ih (fun p hp => hb p (List.mem_append_left _ hp))
    cases a with
    | policy p =>
      have : p.builtin := hb p (by simp)
      simpa [lbOptionSpec.toOption, withLbPolicy] using this
    | requestTimeout t => simpa [lbOptionSpec.toOption, withLbRequestTimeout] using ih'
    | maxFails m => simpa [lbOptionSpec.toOption, withLbMaxFails] using ih'

/-- When every position the loop visits selects a transport, the loop does not
panic. -/
theorem attempts_ok (c : lbDNSClient σ Msg) (ids : IntSlice) (ctx : Context)
    (dnsreq : Bytes) :
    ∀ (n i : Nat) (fr : lbFrame σ Msg),
      (∀ j, i ≤ j → j < i + n → c.lookup ids j ≠ none) →
      ∃ fr', c.attempts ids ctx dnsreq n i fr = .ok fr' := by
  intro n
  induction n with
  | zero => intro i fr _; exact ⟨fr, rfl⟩
  | succ n ih =>
    intro i fr h
    rw [lbDNSClient.attempts]
    cases hl : c.lookup ids i with
    | none => exact absurd hl (h i (le_refl _) (by omega))
    | some pr =>
      obtain ⟨id, cl⟩ := pr
      cases he : (cl.Query (.WithTimeout ctx c.timeout) dnsreq fr.world).1.2 with
      | none =>
        simp only [he]
        exact ⟨_, rfl⟩
      | some e =>
        simp only [he]
        exact ih (i + 1) _ (fun j h1 h2 => h j (by omega) (by omega))

/-- The policy and the pool of a constructed client are those the options
left. -/
theorem newLoadBalanceDNSClient_p_clients (rng : randSource) (clients : List (dnsClient σ Msg))
    (opts : List (lbDNSClientOption σ Msg)) :
    (newLoadBalanceDNSClient rng clients opts).p
      = (opts.foldl (fun c o => o c)
          (⟨newRandomPolicy rng, defaultRequestTimeout, clients.length, clients⟩ :
            lbDNSClient σ Msg)).p ∧
    (newLoadBalanceDNSClient rng clients opts).clients
      = (opts.foldl (fun c o => o c)
          (⟨newRandomPolicy rng, defaultRequestTimeout, clients.length, clients⟩ :
            lbDNSClient σ Msg)).clients := by
  rw [newLoadBalanceDNSClient_eq]
  split_ifs <;> exact ⟨rfl, rfl⟩

/-- C18. For a client built by `newLoadBalanceDNSClient` over a pool of `N`
transports from options of the three constructors, with any `maxFails` values
and built-in policies in any state: when the policy returns its ordering `ids`,
`ids` has exactly `N` entries, all in `[0, N)`, `maxFails ≤ N`, every position
`i < maxFails` the loop visits satisfies `i < len(ids)` and selects a transport
of the pool, and `Query` returns; and if `Query` panics at all, the panic is the
division of the round-robin policy, not an index out of range. -/
theorem lbDNSClient_Query_in_bounds (rng : randSource) (clients : List (dnsClient σ Msg))
    (specs : List lbOptionSpec) (ctx : Context) (dnsreq : Bytes) (w : σ)
    (hb : ∀ p, lbOptionSpec.policy p ∈ specs → p.builtin) :
    (∀ ids,
      ((newLoadBalanceDNSClient rng clients (specs.map lbOptionSpec.toOption)).p.List
        (newLoadBalanceDNSClient rng clients
          (specs.map lbOptionSpec.toOption)).clients.length).1 = .ok ids →
      ids.length = clients.length ∧
      (∀ id ∈ ids, 0 ≤ id ∧ id < (clients.length : Int)) ∧
      (newLoadBalanceDNSClient rng clients (specs.map lbOptionSpec.toOption)).maxFails
        ≤ clients.length ∧
      (∀ i : Nat,
        (i : Int) < (newLoadBalanceDNSClient rng clients
          (specs.map lbOptionSpec.toOption)).maxFails →
        i < ids.length ∧
        ∃ cl, (newLoadBalanceDNSClient rng clients (specs.map lbOptionSpec.toOption)).lookup
          ids i = some ((ids.getD i 0).toNat, cl)) ∧
      ∃ res, ((newLoadBalanceDNSClient rng clients (specs.map lbOptionSpec.toOption)).Query
        ctx dnsreq w).1 = .ok res) ∧
    (∀ pn, ((newLoadBalanceDNSClient rng clients (specs.map lbOptionSpec.toOption)).Query
        ctx dnsreq w).1 = .error pn → pn.reason = "integer divide by zero") := by
  generalize hc : newLoadBalanceDNSClient rng clients (specs.map lbOptionSpec.toOption) = c
  have hpc := newLoadBalanceDNSClient_p_clients rng clients (specs.map lbOptionSpec.toOption)
  have hfold := @foldl_options_maxFails σ Msg specs
    ⟨newRandomPolicy rng, defaultRequestTimeout, clients.length, clients⟩
  have hle := maxFails_le_pool rng clients (specs.map lbOptionSpec.toOption)
  rw [hc] at hpc hle
  have hclients : c.clients = clients := by rw [hpc.2, hfold.2]
  have hbuiltin : c.p.builtin := by
    rw [hpc.1]
    exact foldl_options_builtin specs _ (Or.inl ⟨rng, rfl⟩) hb
  have hvalid := builtin_List_valid c.p hbuiltin clients.length
  clear hpc hfold
  have hmain : ∀ ids, (c.p.List c.clients.length).1 = .ok ids →
      ids.length = clients.length ∧
      (∀ id ∈ ids, 0 ≤ id ∧ id < (clients.length : Int)) ∧
      c.maxFails ≤ clients.length ∧
      (∀ i : Nat, (i : Int) < c.maxFails →
        i < ids.length ∧ ∃ cl, c.lookup ids i = some ((ids.getD i 0).toNat, cl)) ∧
      ∃ res, (c.Query ctx dnsreq w).1 = .ok res := by
    intro ids hids
    have hids' := hids
    rw [hclients] at hids'
    obtain ⟨hlen, hrange⟩ := hvalid.1 ids hids'
    have hlook : ∀ i : Nat, (i : Int) < c.maxFails →
        i < ids.length ∧ ∃ cl, c.lookup ids i = some ((ids.getD i 0).toNat, cl) := by
      intro i hi
      have hi' : i < ids.length := by omega
      exact ⟨hi', lookup_of_valid c ids i hi' (by rw [hclients]; exact hrange)⟩
    refine ⟨hlen, hrange, hle, hlook, ?_⟩
    obtain ⟨fr, hfr⟩ := attempts_ok c ids ctx dnsreq c.maxFails.toNat 0 ⟨none, none, w, [], []⟩
      (fun j _ hj => by
        obtain ⟨_, cl, hcl⟩ := hlook j (by omega)
        rw [hcl]
        simp)
    have hQ : (c.Query ctx dnsreq w).1
        = .ok ⟨fr.r, fr.err, fr.world, fr.trace ++ fr.deferred.map lbEvent.cancel⟩ := by
      simp only [lbDNSClient.Query, hids, hfr]
    exact ⟨_, hQ⟩
  refine ⟨hmain, ?_⟩
  intro pn hpn
  cases hp : (c.p.List c.clients.length).1 with
  | error e =>
    have he := hvalid.2 e (by rw [← hclients]; exact hp)
    simp only [lbDNSClient.Query, hp, Except.error.injEq] at hpn
    rw [← hpn]
    exact he
  | ok ids =>
    obtain ⟨res, hres⟩ := (hmain ids hp).2.2.2.2
    rw [hres] at hpn
    exact absurd hpn (by simp)

theorem lbDNSClient_Query_in_bounds_witness :
    ∃ res, ((newLoadBalanceDNSClient ⟨fun k => k⟩ [mockDNSClient none, mockDNSClient none]
      ([lbOptionSpec.policy (roundRobinPolicy.toPolicy ⟨7⟩), lbOptionSpec.maxFails 10].map
        lbOptionSpec.toOption)).Query .Background [97, 98, 99] 0).1 = .ok res :=
  ((lbDNSClient_Query_in_bounds ⟨fun k => k⟩ [mockDNSClient none, mockDNSClient none]
    [lbOptionSpec.policy (roundRobinPolicy.toPolicy ⟨7⟩), lbOptionSpec.maxFails 10]
    .Background [97, 98, 99] 0
    (by
      intro p hp
      simp at hp
      subst hp
      exact Or.inr (Or.inl ⟨_, rfl⟩))).1 [0, 1] (by decide)).2.2.2.2

end lbBounds

section setup

variable {κ τ : Type}

theorem appendURLs_ok (env : setupEnv τ) : ∀ (tos acc : List String),
    (appendURLs env tos acc).1 = none →
    (appendURLs env tos acc).2 = acc ++ tos.map (fun addr => "https://" ++ addr)
  | [], acc, _ => by simp [appendURLs]
  | addr :: rest, acc, h => by
    rw [appendURLs] at h ⊢
    cases hp : env.ParseRequestURI ("https://" ++ addr) with
    | some e => rw [hp] at h; simp at h
    | none =>
      rw [hp] at h
      simp only at h ⊢
      rw [appendURLs_ok env rest _ h]
      simp

/-- No property parser touches `conf.toURLs`. -/
theorem parseBlock_toURLs (env : setupEnv τ) (c : Controller κ) (conf : httpsConfig τ) (k : κ) :
    (parseBlock env c conf k).2.1.toURLs = conf.toURLs := by
  unfold parseBlock
  split_ifs
  · simp only [parseExcept]
    split_ifs
    · rfl
    · split <;> rfl
  · simp only [parseTLS]
    split <;> rfl
  · simp only [parseTLSServerName]
    split <;> rfl
  · simp only [parsePolicy]
    split
    · split_ifs <;> rfl
    · rfl
  · rfl

theorem parseBlocks_toURLs (env : setupEnv τ) (c : Controller κ) :
    ∀ (fuel : Nat) (conf : httpsConfig τ) (k : κ) (e : Option error) (conf' : httpsConfig τ)
      (k' : κ), parseBlocks env c fuel conf k = some (e, conf', k') →
      conf'.toURLs = conf.toURLs := by
  intro fuel
  induction fuel with
  | zero => intro conf k e conf' k' h; simp [parseBlocks] at h
  | succ fuel ih =>
    intro conf k e conf' k' h
    rw [parseBlocks] at h
    by_cases hnb : (c.NextBlock k).1 = true
    · simp only [hnb, if_true] at h
      have hpb := parseBlock_toURLs env c conf (c.NextBlock k).2
      rcases hb : parseBlock env c conf (c.NextBlock k).2 with ⟨eb, confb, kb⟩
      rw [hb] at h hpb
      cases eb with
      | some e1 =>
        simp only [Option.some.injEq, Prod.mk.injEq] at h
        obtain ⟨_, hconf, _⟩ := h
        rw [← hconf]
        exact hpb
      | none =>
        simp only at h
        rw [ih confb kb e conf' k' h]
        exact hpb
    · simp only [hnb] at h
      simp only [Bool.false_eq_true, if_false, Option.some.injEq, Prod.mk.injEq] at h
      obtain ⟨_, hconf, _⟩ := h
      rw [← hconf]

/-- C17. `parseConfig` returns an error, for every bound on the block loop,
whenever the addresses given after the zone (the result of `RemainingArgs`) are
zero or more than 15 (`maxUpstreams`); and whenever it returns a nil error, the
directive and its zone were read, between 1 and 15 addresses were given, and
`conf.toURLs` has one entry per address, in the given order, each equal to
"https://" followed by the address. -/
theorem parseConfig_pool_bounds (env : setupEnv τ) (c : Controller κ) (k0 : κ) :
    (∀ k1 from0 k2 host tos k3, c.Next k0 = (true, k1) → c.Args k1 = (some from0, k2) →
      parseHost env from0 = .ok host → c.RemainingArgs k2 = (tos, k3) →
      (tos.length = 0 ∨ 15 < tos.length) →
      ∀ fuel, ∃ conf e, parseConfig env c fuel k0 = some ((conf, some e), k3)) ∧
    (∀ fuel conf k', parseConfig env c fuel k0 = some ((conf, none), k') →
      ∃ k1 from0 k2 tos k3, c.Next k0 = (true, k1) ∧ c.Args k1 = (some from0, k2) ∧
        c.RemainingArgs k2 = (tos, k3) ∧
        1 ≤ tos.length ∧ tos.length ≤ 15 ∧
        conf.toURLs = tos.map (fun addr => "https://" ++ addr) ∧
        1 ≤ conf.toURLs.length ∧ conf.toURLs.length ≤ 15) := by
  constructor
  · intro k1 from0 k2 host tos k3 hnext hargs hhost hrem hlen fuel
    simp only [parseConfig, hnext, hargs, hhost, hrem, maxUpstreams]
    rcases hlen with h0 | hbig
    · simp [h0]
    · have hne : ¬ tos.length = 0 := by omega
      simp [hne, hbig]
  · intro fuel conf k' h
    simp only [parseConfig] at h
    rcases hnext : c.Next k0 with ⟨b, k1⟩
    rw [hnext] at h
    cases b with
    | false => simp at h
    | true =>
      simp only [not_true_eq_false, if_false] at h
      rcases hargs : c.Args k1 with ⟨a, k2⟩
      rw [hargs] at h
      cases a with
      | none => simp at h
      | some from0 =>
        simp only at h
        cases hhost : parseHost env from0 with
        | error e => rw [hhost] at h; simp at h
        | ok host =>
          rw [hhost] at h
          simp only at h
          rcases hrem : c.RemainingArgs k2 with ⟨tos, k3⟩
          rw [hrem] at h
          simp only [maxUpstreams] at h
          by_cases h0 : tos.length = 0
          · simp [h0] at h
          · by_cases hbig : tos.length > 15
            · simp [h0, hbig] at h
            · simp only [h0, hbig, if_false] at h
              cases hurls : (appendURLs env tos []).1 with
              | some e => rw [hurls] at h; simp at h
              | none =>
                rw [hurls] at h
                simp only at h
                have hmap := appendURLs_ok env tos [] hurls
                simp only [List.nil_append] at hmap
                cases hblocks : parseBlocks env c fuel
                    ⟨host, (appendURLs env tos []).2, [], none, "", none⟩ k3 with
                | none => rw [hblocks] at h; simp at h
                | some out =>
                  obtain ⟨eb, confb, kb⟩ := out
                  rw [hblocks] at h
                  have hkeep := parseBlocks_toURLs env c fuel _ _ _ _ _ hblocks
                  cases eb with
                  | some e => simp at h
                  | none =>
                    simp only at h
                    have hconf : conf.toURLs = confb.toURLs := by
                      by_cases hname : confb.tlsServerName ≠ ""
                      · rw [if_pos hname] at h
                        simp only [Option.some.injEq, Prod.mk.injEq] at h
                        obtain ⟨⟨hc, _⟩, _⟩ := h
                        rw [← hc]
                      · rw [if_neg hname] at h
                        simp only [Option.some.injEq, Prod.mk.injEq] at h
                        obtain ⟨⟨hc, _⟩, _⟩ := h
                        rw [← hc]
                    have hfinal : conf.toURLs = tos.map (fun addr => "https://" ++ addr) := by
                      rw [hconf, hkeep, hmap]
                    refine ⟨k1, from0, k2, tos, k3, rfl, hargs, hrem, by omega, by omega,
                      hfinal, ?_, ?_⟩
                    · rw [hfinal, List.length_map]; omega
                    · rw [hfinal, List.length_map]; omega

theorem parseConfig_pool_bounds_witness :
    (∀ fuel, ∃ conf e, parseConfig plainEnv lineController fuel ["https", "."]
      = some ((conf, some e), [])) ∧
    (∃ k1 from0 k2 tos k3,
      lineController.Next ["https", ".", "example.com/dns-query", "example.org/dns-query"]
        = (true, k1) ∧
      lineController.Args k1 = (some from0, k2) ∧
      lineController.RemainingArgs k2 = (tos, k3) ∧
      1 ≤ tos.length ∧ tos.length ≤ 15 ∧
      (⟨".", ["https://example.com/dns-query", "https://example.org/dns-query"], [], none, "",
          none⟩ : httpsConfig String).toURLs = tos.map (fun addr => "https://" ++ addr) ∧
      1 ≤ (⟨".", ["https://example.com/dns-query", "https://example.org/dns-query"], [], none,
          "", none⟩ : httpsConfig String).toURLs.length ∧
      (⟨".", ["https://example.com/dns-query", "https://example.org/dns-query"], [], none, "",
          none⟩ : httpsConfig String).toURLs.length ≤ 15) :=
  ⟨(parseConfig_pool_bounds plainEnv lineController ["https", "."]).1
      ["."] "." [] "." [] [] rfl rfl rfl rfl (Or.inl rfl),
    (parseConfig_pool_bounds plainEnv lineController
      ["https", ".", "example.com/dns-query", "example.org/dns-query"]).2 1
      ⟨".", ["https://example.com/dns-query", "https://example.org/dns-query"], [], none, "",
        none⟩ [] (by rfl)⟩

end setup

section lbScopes

variable {σ Msg : Type}

/-- The loop with context objects is the loop of `lbDNSClient.attempts` once the
identities are forgotten. -/
theorem attemptsScoped_erase (c : lbDNSClient σ Msg) (expired : Nat → Bool) (ids : IntSlice)
    (ctx : Context) (dnsreq : Bytes) :
    ∀ (n i : Nat) (fr : scopedFrame σ Msg),
      (match c.attemptsScoped expired ids ctx dnsreq n i fr with
        | .ok fr' => Except.ok (fr'.erase (.WithTimeout ctx c.timeout))
        | .error (e, fr') => Except.error (e, fr'.erase (.WithTimeout ctx c.timeout)))
      = c.attempts ids ctx dnsreq n i (fr.erase (.WithTimeout ctx c.timeout)) := by
  intro n
  induction n with
  | zero => intro i fr; simp [lbDNSClient.attemptsScoped, lbDNSClient.attempts]
  | succ n ih =>
    intro i fr
    rw [lbDNSClient.attemptsScoped, lbDNSClient.attempts]
    cases hl : c.lookup ids i with
    | none => simp [scopedFrame.erase, scopeEvent.erase, List.filterMap_append]
    | some pr =>
      obtain ⟨id, cl⟩ := pr
      have hw : (fr.erase (Context.WithTimeout ctx c.timeout)).world = fr.world := rfl
      simp only [hw]
      cases he : (cl.Query (.WithTimeout ctx c.timeout) dnsreq fr.world).1.2 with
      | none => simp [scopedFrame.erase, scopeEvent.erase, List.filterMap_append]
      | some e =>
        simp only []
        rw [ih]
        simp [scopedFrame.erase, scopeEvent.erase, List.filterMap_append]

theorem scopesWith_succ (t : Duration) (fl : Nat → Bool) (n : Nat) :
    scopesWith t fl (n + 1) = scopesWith t fl n ++ [⟨n + 1, [0], t, fl n⟩] := by
  simp [scopesWith, List.range_succ]

theorem scopesWith_find_none (t : Duration) (fl : Nat → Bool) (n x : Nat)
    (hx : x = 0 ∨ n < x) :
    (scopesWith t fl n).find? (fun nd => nd.id = x) = none := by
  rw [List.find?_eq_none]
  intro nd hnd
  simp only [scopesWith, List.mem_map, List.mem_range] at hnd
  obtain ⟨j, hj, rfl⟩ := hnd
  simp only [decide_eq_true_eq]
  omega

theorem scopesWith_find_some (t : Duration) (fl : Nat → Bool) :
    ∀ (n x : Nat), 1 ≤ x → x ≤ n →
      (scopesWith t fl n).find? (fun nd => nd.id = x) = some ⟨x, [0], t, fl (x - 1)⟩ := by
  intro n
  induction n with
  | zero => intro x h1 h2; omega
  | succ n ih =>
    intro x h1 h2
    rw [scopesWith_succ, List.find?_append]
    rcases Nat.lt_or_ge n x with hlt | hge
    · have hx : x = n + 1 := by omega
      subst hx
      rw [scopesWith_find_none t fl n (n + 1) (Or.inr (by omega))]
      simp
    · rw [ih x h1 hge]
      rfl

/-- Making the scope of the next attempt in a store of `i` scopes. -/
theorem scopesWith_WithTimeout (t : Duration) (fl : Nat → Bool) (i : Nat) (t' : Duration) :
    scopeStore.WithTimeout (scopesWith t fl i) 0 t'
      = (i + 1, scopesWith t fl i ++ [⟨i + 1, [0], t', decide (t' ≤ 0)⟩]) := by
  have hlen : (scopesWith t fl i).length = i := by simp [scopesWith]
  simp only [scopeStore.WithTimeout, scopeStore.ancestorsOf, scopeStore.isDone,
    scopesWith_find_none t fl i 0 (Or.inl rfl), hlen, Bool.false_or]

theorem scopesWith_isDone_last (t : Duration) (fl : Nat → Bool) (i : Nat) (t' : Duration)
    (b : Bool) :
    scopeStore.isDone (scopesWith t fl i ++ [⟨i + 1, [0], t', b⟩]) (i + 1) = b := by
  simp [scopeStore.isDone, List.find?_append,
    scopesWith_find_none t fl i (i + 1) (Or.inr (by omega))]

/-- A store whose scopes are all done is left as it is by any `cancel`. -/
theorem scopesWith_cancel_done (t : Duration) (n x : Nat) :
    scopeStore.cancel (scopesWith t (fun _ => true) n) x = scopesWith t (fun _ => true) n := by
  simp only [scopeStore.cancel, scopesWith, List.map_map]
  apply List.map_congr_left
  intro j _
  simp

theorem scopesWith_cancel_last (t : Duration) (i : Nat) (b : Bool) :
    scopeStore.cancel (scopesWith t (fun _ => true) i ++ [⟨i + 1, [0], t, b⟩]) (i + 1)
      = scopesWith t (fun _ => true) (i + 1) := by
  have h := scopesWith_cancel_done t i (i + 1)
  simp only [scopeStore.cancel] at h
  rw [scopesWith_succ]
  simp only [scopeStore.cancel, List.map_append, h]
  simp

/-- The `cancel` of the newest scope after its timer has or has not fired. -/
theorem scopesWith_cancel_returned (t : Duration) (i : Nat) (b e : Bool) :
    scopeStore.cancel
        (if e then scopeStore.cancel (scopesWith t (fun _ => true) i ++ [⟨i + 1, [0], t, b⟩])
            (i + 1)
          else scopesWith t (fun _ => true) i ++ [⟨i + 1, [0], t, b⟩]) (i + 1)
      = scopesWith t (fun _ => true) (i + 1) := by
  cases e
  · simp only [Bool.false_eq_true, if_false]
    exact scopesWith_cancel_last t i b
  · simp only [if_true]
    rw [scopesWith_cancel_last, scopesWith_cancel_done]

theorem scopesWith_foldl_cancel (t : Duration) (n : Nat) (l : List Nat) :
    l.foldl scopeStore.cancel (scopesWith t (fun _ => true) n)
      = scopesWith t (fun _ => true) n := by
  induction l with
  | nil => rfl
  | cons x l ih => rw [List.foldl_cons, scopesWith_cancel_done, ih]

/-- The `cancel` of one scope leaves every other scope of such a store as it
is. -/
theorem scopesWith_cancel_other (t : Duration) (fl : Nat → Bool) (n x y : Nat)
    (hxy : x ≠ y) (hx : x ≠ 0) :
    scopeStore.isDone (scopeStore.cancel (scopesWith t fl n) x) y
      = scopeStore.isDone (scopesWith t fl n) y := by
  have hc : scopeStore.cancel (scopesWith t fl n) x
      = scopesWith t (fun j => fl j || decide (j + 1 = x)) n := by
    simp only [scopeStore.cancel, scopesWith, List.map_map]
    apply List.map_congr_left
    intro j _
    by_cases hj : j + 1 = x
    · simp [hj]
    · have : ¬ x = 0 := hx
      simp [hj, this]
  rw [hc]
  by_cases hy : 1 ≤ y ∧ y ≤ n
  · simp only [scopeStore.isDone, scopesWith_find_some _ _ n y hy.1 hy.2]
    have : ¬ (y - 1 + 1 = x) := by omega
    simp [this]
  · have hy' : y = 0 ∨ n < y := by omega
    simp only [scopeStore.isDone, scopesWith_find_none _ _ n y hy']

/-- A run of `n` failing attempts of the scoped loop starting at position `i`,
in a store where the scopes of the attempts before are done: the loop continues
at position `i + n` with the frame described. -/
theorem attemptsScoped_failures (c : lbDNSClient σ Msg) (expired : Nat → Bool)
    (ids : IntSlice) (ctx : Context) (dnsreq : Bytes) (ws : Nat → σ)
    (reply : Nat → Option Msg × Option error) :
    ∀ (n m i : Nat) (fr : scopedFrame σ Msg), fr.world = ws i →
      fr.store = scopesWith c.timeout (fun _ => true) i →
      (∀ j, i ≤ j → j < i + n → ∃ cl, c.lookup ids j = some ((ids.getD j 0).toNat, cl) ∧
        cl.Query (.WithTimeout ctx c.timeout) dnsreq (ws j) = (reply j, ws (j + 1)) ∧
        (reply j).2 ≠ none) →
      ∃ fr' : scopedFrame σ Msg,
        c.attemptsScoped expired ids ctx dnsreq (n + m) i fr
          = c.attemptsScoped expired ids ctx dnsreq m (i + n) fr' ∧
        fr'.world = ws (i + n) ∧
        fr'.trace = fr.trace ++ (List.range' i n).flatMap (fun j =>
          [scopeEvent.WithTimeout 0 c.timeout (j + 1),
            scopeEvent.Query (ids.getD j 0).toNat (j + 1) (decide (c.timeout ≤ 0)) dnsreq,
            scopeEvent.cancel (j + 1)]) ∧
        fr'.deferred = (List.range' i n).reverse.map (fun j => j + 1) ++ fr.deferred ∧
        fr'.store = scopesWith c.timeout (fun _ => true) (i + n) ∧
        (0 < n → fr'.r = (reply (i + n - 1)).1 ∧ fr'.err = (reply (i + n - 1)).2) ∧
        (n = 0 → fr' = fr) := by
  intro n
  induction n with
  | zero =>
    intro m i fr hw hs _
    exact ⟨fr, by simp, by simpa using hw, by simp, by simp, by simpa using hs, by simp,
      fun _ => rfl⟩
  | succ n ih =>
    intro m i fr hw hs hfail
    obtain ⟨cl, hl, hq, hne⟩ := hfail i (le_refl _) (by omega)
    obtain ⟨e, he⟩ := Option.ne_none_iff_exists'.mp hne
    have hq' : cl.Query (.WithTimeout ctx c.timeout) dnsreq fr.world = (reply i, ws (i + 1)) := by
      rw [hw]; exact hq
    obtain ⟨fr', h1, h2, h3, h4, h5, h6, h7⟩ := ih m (i + 1)
      ⟨(reply i).1, some e, ws (i + 1),
        fr.trace ++ [scopeEvent.WithTimeout 0 c.timeout (i + 1)]
          ++ [scopeEvent.Query (ids.getD i 0).toNat (i + 1) (decide (c.timeout ≤ 0)) dnsreq]
          ++ [scopeEvent.cancel (i + 1)],
        (i + 1) :: fr.deferred, scopesWith c.timeout (fun _ => true) (i + 1)⟩ rfl rfl
      (fun j hj1 hj2 => hfail j (by omega) (by omega))
    refine ⟨fr', ?_, ?_, ?_, ?_, ?_, ?_, ?_⟩
    · rw [show n + 1 + m = (n + m) + 1 by omega, lbDNSClient.attemptsScoped]
      simp only [hs, scopesWith_WithTimeout, scopesWith_isDone_last,
        scopesWith_cancel_returned, hl, hq', he]
      rw [h1, show i + 1 + n = i + (n + 1) by omega]
    · rw [h2, show i + 1 + n = i + (n + 1) by omega]
    · rw [h3]
      simp [List.range'_succ, List.flatMap_cons]
    · rw [h4]
      simp [List.range'_succ]
    · rw [h5, show i + 1 + n = i + (n + 1) by omega]
    · intro _
      rcases Nat.eq_zero_or_pos n with hn | hn
      · subst hn
        rw [h7 rfl]
        simp [he]
      · have := h6 hn
        rw [show i + (n + 1) - 1 = i + 1 + n - 1 by omega]
        exact this
    · intro h; omega

/-- With the identities of the scopes forgotten, `QueryScoped` is `Query`. -/
theorem QueryScoped_erase (c : lbDNSClient σ Msg) (expired : Nat → Bool) (ctx : Context)
    (dnsreq : Bytes) (w : σ) :
    eraseScopes (.WithTimeout ctx c.timeout) (c.QueryScoped expired ctx dnsreq w)
      = (c.Query ctx dnsreq w).1 := by
  have hconst : ∀ (a : lbEvent) (l : List Nat),
      List.filterMap (fun _ => some a) l = List.replicate l.length a := by
    intro a l
    induction l with
    | nil => rfl
    | cons x l ih => simp [List.replicate_succ, ih]
  simp only [lbDNSClient.QueryScoped, lbDNSClient.Query]
  cases hp : (c.p.List c.clients.length).1 with
  | error e => simp [eraseScopes]
  | ok ids =>
    have h := attemptsScoped_erase c expired ids ctx dnsreq c.maxFails.toNat 0
      ⟨none, none, w, [], [], []⟩
    have h0 : (⟨none, none, w, [], [], []⟩ : scopedFrame σ Msg).erase (.WithTimeout ctx c.timeout)
        = ⟨none, none, w, [], []⟩ := rfl
    rw [h0] at h
    simp only []
    rw [← h]
    cases hr : c.attemptsScoped expired ids ctx dnsreq c.maxFails.toNat 0
        ⟨none, none, w, [], [], []⟩ with
    | error p =>
      obtain ⟨e, fr⟩ := p
      simp [eraseScopes, scopedFrame.runDeferred, scopedFrame.erase, scopeEvent.erase,
        List.filterMap_append, List.filterMap_map, Function.comp_def, hconst]
    | ok fr =>
      simp [eraseScopes, scopedFrame.runDeferred, scopedFrame.erase, scopeEvent.erase,
        List.filterMap_append, List.filterMap_map, Function.comp_def, hconst]

/-- C15. The scopes of the attempts of `lbDNSClient.Query` are independent.
`QueryScoped` is `Query` with the context objects told apart, for every choice
`expired` of the attempts whose timer fires during the transport call:
(1) with the identities forgotten its outcome is the outcome of `Query`, on
every path;
(2) in a call that makes `a ≥ 1` attempts (the attempts before the last fail,
the last one succeeds or is attempt number `maxFails`), the events are exactly:
for each position `j < a` in order, the making of a new scope `j + 1` from the
caller's context (identity 0) with timeout `c.timeout`, the call of
`clients[ids[j]]` under that scope, which at that moment is done only if the
timeout is not positive (the caller's context being live), whatever was
cancelled or timed out before, and, if the attempt failed, the `cancel` of that
scope; then the deferred `cancel` calls. At the end the store holds the `a` scopes, each derived from the
caller's context alone;
(3) in a call whose attempt at position `k` finds no transport (the index
expression panics) after `k` failed attempts, the events are the same for the
positions before `k`, then the making of the scope `k + 1` from the caller's
context, then the deferred `cancel` calls;
(4) in a store of scopes derived from the caller's context alone, which by (2)
and (3) is what such a call builds, the `cancel` or the expiry of one scope
changes the state of no other scope. -/
theorem lbDNSClient_Query_scopes (c : lbDNSClient σ Msg) (expired : Nat → Bool)
    (ctx : Context) (dnsreq : Bytes) (w : σ) :
    eraseScopes (.WithTimeout ctx c.timeout) (c.QueryScoped expired ctx dnsreq w)
        = (c.Query ctx dnsreq w).1 ∧
    (∀ (ids : IntSlice) (a : Nat) (ws : Nat → σ) (reply : Nat → Option Msg × Option error),
      (c.p.List c.clients.length).1 = .ok ids →
      1 ≤ a → a ≤ c.maxFails.toNat → ws 0 = w →
      (∀ j < a, ∃ cl, c.lookup ids j = some ((ids.getD j 0).toNat, cl) ∧
        cl.Query (.WithTimeout ctx c.timeout) dnsreq (ws j) = (reply j, ws (j + 1))) →
      (∀ j, j + 1 < a → (reply j).2 ≠ none) →
      ((reply (a - 1)).2 = none ∨ a = c.maxFails.toNat) →
      c.QueryScoped expired ctx dnsreq w = .ok ⟨(reply (a - 1)).1, (reply (a - 1)).2, ws a,
        (List.range a).flatMap (fun j =>
            [scopeEvent.WithTimeout 0 c.timeout (j + 1),
              scopeEvent.Query (ids.getD j 0).toNat (j + 1) (decide (c.timeout ≤ 0)) dnsreq]
            ++ (if (reply j).2.isSome then [scopeEvent.cancel (j + 1)] else []))
          ++ (List.range a).reverse.map (fun j => scopeEvent.cancel (j + 1)),
        [], scopesWith c.timeout (fun _ => true) a⟩) ∧
    (∀ (ids : IntSlice) (k : Nat) (ws : Nat → σ) (reply : Nat → Option Msg × Option error),
      (c.p.List c.clients.length).1 = .ok ids →
      k < c.maxFails.toNat → ws 0 = w →
      (∀ j < k, ∃ cl, c.lookup ids j = some ((ids.getD j 0).toNat, cl) ∧
        cl.Query (.WithTimeout ctx c.timeout) dnsreq (ws j) = (reply j, ws (j + 1)) ∧
        (reply j).2 ≠ none) →
      c.lookup ids k = none →
      c.QueryScoped expired ctx dnsreq w = .error ("index out of range",
        ⟨if k = 0 then none else (reply (k - 1)).1, if k = 0 then none else (reply (k - 1)).2,
          ws k,
          (List.range k).flatMap (fun j =>
              [scopeEvent.WithTimeout 0 c.timeout (j + 1),
                scopeEvent.Query (ids.getD j 0).toNat (j + 1) (decide (c.timeout ≤ 0)) dnsreq,
                scopeEvent.cancel (j + 1)])
            ++ scopeEvent.WithTimeout 0 c.timeout (k + 1)
              :: (List.range (k + 1)).reverse.map (fun j => scopeEvent.cancel (j + 1)),
          [], scopesWith c.timeout (fun _ => true) (k + 1)⟩)) ∧
    (∀ (done : Nat → Bool) (n x y : Nat), x ≠ 0 → x ≠ y →
      scopeStore.isDone (scopeStore.cancel (scopesWith c.timeout done n) x) y
        = scopeStore.isDone (scopesWith c.timeout done n) y) := by
  refine ⟨QueryScoped_erase c expired ctx dnsreq w, ?_, ?_,
    fun done n x y hx hxy => scopesWith_cancel_other c.timeout done n x y hxy hx⟩
  rotate_left
  · intro ids k ws reply hids hk hw hfail hnone
    obtain ⟨fr, h1, h2, h3, h4, h5, h6, h7⟩ := attemptsScoped_failures c expired ids ctx dnsreq
      ws reply k (c.maxFails.toNat - k - 1 + 1) 0 ⟨none, none, w, [], [], []⟩ hw.symm rfl
      (fun j _ hj => hfail j (by omega))
    have hsplit : c.maxFails.toNat = k + (c.maxFails.toNat - k - 1 + 1) := by omega
    rw [Nat.zero_add] at h2 h5 h6
    have hr : fr.r = (if k = 0 then none else (reply (k - 1)).1)
        ∧ fr.err = (if k = 0 then none else (reply (k - 1)).2) := by
      rcases Nat.eq_zero_or_pos k with hk0 | hk0
      · rw [h7 hk0, if_pos hk0, if_pos hk0]
        exact ⟨rfl, rfl⟩
      · rw [if_neg (by omega), if_neg (by omega)]
        exact h6 hk0
    have hloop : c.attemptsScoped expired ids ctx dnsreq c.maxFails.toNat 0
          ⟨none, none, w, [], [], []⟩
        = .error ("index out of range", ⟨fr.r, fr.err, fr.world,
            fr.trace ++ [scopeEvent.WithTimeout 0 c.timeout (k + 1)],
            (k + 1) :: fr.deferred,
            scopesWith c.timeout (fun _ => true) k
              ++ [⟨k + 1, [0], c.timeout, decide (c.timeout ≤ 0)⟩]⟩) := by
      rw [hsplit, h1, Nat.zero_add, lbDNSClient.attemptsScoped]
      simp only [h5, scopesWith_WithTimeout, hnone]
    simp only [lbDNSClient.QueryScoped, hids, hloop, scopedFrame.runDeferred, h2, h3, h4,
      hr.1, hr.2, List.foldl_cons, scopesWith_cancel_last, scopesWith_foldl_cancel]
    simp [List.range_succ, List.range_eq_range']
  intro ids a ws reply hids ha hle hw hrun hfail hstop
  obtain ⟨k, rfl⟩ : ∃ k, a = k + 1 := ⟨a - 1, by omega⟩
  simp only [Nat.add_sub_cancel] at hstop ⊢
  obtain ⟨fr, h1, h2, h3, h4, h5, _, _⟩ := attemptsScoped_failures c expired ids ctx dnsreq ws
    reply k (c.maxFails.toNat - k - 1 + 1) 0 ⟨none, none, w, [], [], []⟩ hw.symm rfl
    (fun j _ hj => by
      obtain ⟨cl, hl, hq⟩ := hrun j (by omega)
      exact ⟨cl, hl, hq, hfail j (by omega)⟩)
  obtain ⟨cl, hl, hq⟩ := hrun k (by omega)
  have hsplit : c.maxFails.toNat = k + (c.maxFails.toNat - k - 1 + 1) := by omega
  rw [Nat.zero_add] at h2 h5
  have hq' : cl.Query (.WithTimeout ctx c.timeout) dnsreq fr.world = (reply k, ws (k + 1)) := by
    rw [h2]; exact hq
  have hprefix : (List.range' 0 k).flatMap (fun j =>
        [scopeEvent.WithTimeout 0 c.timeout (j + 1),
          scopeEvent.Query (ids.getD j 0).toNat (j + 1) (decide (c.timeout ≤ 0)) dnsreq,
          scopeEvent.cancel (j + 1)])
      = (List.range k).flatMap (fun j =>
        [scopeEvent.WithTimeout 0 c.timeout (j + 1),
          scopeEvent.Query (ids.getD j 0).toNat (j + 1) (decide (c.timeout ≤ 0)) dnsreq]
        ++ (if (reply j).2.isSome then [scopeEvent.cancel (j + 1)] else [])) := by
    rw [← List.range_eq_range']
    have hgen : ∀ l : List Nat, (∀ j ∈ l, j < k) →
        l.flatMap (fun j =>
          [scopeEvent.WithTimeout 0 c.timeout (j + 1),
            scopeEvent.Query (ids.getD j 0).toNat (j + 1) (decide (c.timeout ≤ 0)) dnsreq,
            scopeEvent.cancel (j + 1)])
        = l.flatMap (fun j =>
          [scopeEvent.WithTimeout 0 c.timeout (j + 1),
            scopeEvent.Query (ids.getD j 0).toNat (j + 1) (decide (c.timeout ≤ 0)) dnsreq]
          ++ (if (reply j).2.isSome then [scopeEvent.cancel (j + 1)] else [])) := by
      intro l
      induction l with
      | nil => intro _; rfl
      | cons x l ih =>
        intro hl
        have hx : (reply x).2.isSome = true :=
          Option.isSome_iff_ne_none.mpr (hfail x (by have := hl x (List.mem_cons_self _ _); omega))
        rw [List.flatMap_cons, List.flatMap_cons, ih (fun j hj => hl j (List.mem_cons_of_mem _ hj)),
          hx]
        simp
    exact hgen _ (fun j hj => List.mem_range.mp hj)
  cases he : (reply k).2 with
  | none =>
    have hloop : c.attemptsScoped expired ids ctx dnsreq c.maxFails.toNat 0
          ⟨none, none, w, [], [], []⟩
        = .ok ⟨(reply k).1, none, ws (k + 1),
            fr.trace ++ [scopeEvent.WithTimeout 0 c.timeout (k + 1)]
              ++ [scopeEvent.Query (ids.getD k 0).toNat (k + 1) (decide (c.timeout ≤ 0)) dnsreq],
            (k + 1) :: fr.deferred,
            if expired k then scopeStore.cancel
                (scopesWith c.timeout (fun _ => true) k
                  ++ [⟨k + 1, [0], c.timeout, decide (c.timeout ≤ 0)⟩]) (k + 1)
              else scopesWith c.timeout (fun _ => true) k
                  ++ [⟨k + 1, [0], c.timeout, decide (c.timeout ≤ 0)⟩]⟩ := by
      rw [hsplit, h1, Nat.zero_add, lbDNSClient.attemptsScoped]
      simp only [h5, scopesWith_WithTimeout, scopesWith_isDone_last, hl, hq', he]
    simp only [lbDNSClient.QueryScoped, hids, hloop, scopedFrame.runDeferred, h3, h4,
      List.foldl_cons, scopesWith_cancel_returned, scopesWith_foldl_cancel, hprefix]
    simp [List.range_succ, List.range_eq_range', he]
  | some e =>
    have hmax : k + 1 = c.maxFails.toNat := by
      rcases hstop with h | h
      · rw [he] at h; cases h
      · exact h
    have hloop : c.attemptsScoped expired ids ctx dnsreq c.maxFails.toNat 0
          ⟨none, none, w, [], [], []⟩
        = .ok ⟨(reply k).1, some e, ws (k + 1),
            fr.trace ++ [scopeEvent.WithTimeout 0 c.timeout (k + 1)]
              ++ [scopeEvent.Query (ids.getD k 0).toNat (k + 1) (decide (c.timeout ≤ 0)) dnsreq]
              ++ [scopeEvent.cancel (k + 1)],
            (k + 1) :: fr.deferred, scopesWith c.timeout (fun _ => true) (k + 1)⟩ := by
      rw [hsplit, h1, Nat.zero_add, lbDNSClient.attemptsScoped]
      simp only [h5, scopesWith_WithTimeout, scopesWith_isDone_last,
        scopesWith_cancel_returned, hl, hq', he]
      rw [show c.maxFails.toNat - k - 1 = 0 by omega, lbDNSClient.attemptsScoped]
    simp only [lbDNSClient.QueryScoped, hids, hloop, scopedFrame.runDeferred, h3, h4,
      scopesWith_foldl_cancel, hprefix]
    simp [List.range_succ, List.range_eq_range', he]

theorem lbDNSClient_Query_scopes_witness :
    (⟨sequentialPolicy.toPolicy ⟨⟩, defaultRequestTimeout, 3,
        [mockDNSClient (some (.foreign "error 1")), mockDNSClient (some (.foreign "error 2")),
          mockDNSClient none]⟩ : lbDNSClient Nat String).QueryScoped
        (fun j => decide (j = 0)) .Background [97, 98, 99] 0
      = .ok ⟨some "expected", none, 3,
          [scopeEvent.WithTimeout 0 2000000000 1, scopeEvent.Query 0 1 false [97, 98, 99],
            scopeEvent.cancel 1,
            scopeEvent.WithTimeout 0 2000000000 2, scopeEvent.Query 1 2 false [97, 98, 99],
            scopeEvent.cancel 2,
            scopeEvent.WithTimeout 0 2000000000 3, scopeEvent.Query 2 3 false [97, 98, 99],
            scopeEvent.cancel 3, scopeEvent.cancel 2, scopeEvent.cancel 1],
          [],
          [⟨1, [0], 2000000000, true⟩, ⟨2, [0], 2000000000, true⟩,
            ⟨3, [0], 2000000000, true⟩]⟩ :=
  (lbDNSClient_Query_scopes
    (⟨sequentialPolicy.toPolicy ⟨⟩, defaultRequestTimeout, 3,
      [mockDNSClient (some (.foreign "error 1")), mockDNSClient (some (.foreign "error 2")),
        mockDNSClient none]⟩ : lbDNSClient Nat String)
    (fun j => decide (j = 0)) .Background [97, 98, 99] 0).2.1
    [0, 1, 2] 3 (fun j => j)
    (fun j => if j = 0 then (some "expected", some (.foreign "error 1"))
      else if j = 1 then (some "expected", some (.foreign "error 2"))
      else (some "expected", none))
    (by decide) (by decide) (by decide) rfl
    (by
      intro j hj
      interval_cases j
      · exact ⟨mockDNSClient (some (.foreign "error 1")), rfl, rfl⟩
      · exact ⟨mockDNSClient (some (.foreign "error 2")), rfl, rfl⟩
      · exact ⟨mockDNSClient none, rfl, rfl⟩)
    (by
      intro j hj
      have hj2 : j < 2 := by omega
      interval_cases j <;> simp)
    (Or.inl rfl)

end lbScopes

end https
